import Mathlib

/-! # bloom-filter-redis: a shallow embedding of package `bloom`

The development follows the Go sources `bloom/bloom.go`, `bloom/redis.go`,
`bloom/cache.go` and `bloom/storage.go`.

* Byte slices are lists of `Fin 256`; `uint` is the 64-bit unsigned integer, kept as a
  `Nat` with an explicit `% 2 ^ 64` where the source can wrap.
* The Redis server is an explicit value `Client`: a key space of bitmaps together with
  the log of the requests sent to it.  Every request carries a `fault` argument, the
  error (if any) with which the server or the connection answers that request.
* Offsets and sizes reach the server as naturals: the conversions `int64(...)` of
  redis.go are the identity below `2 ^ 63`, and a server that rejects a command is a fault.
* The facade runs sequentially: the locks of `BloomFilter` and `safeMap` are not part
  of the model.
* A Go run-time panic (division by zero, nil dereference, index out of range) is the
  outcome `Go.panic`.
-/

namespace Bloom

/-! ## Values, errors and outcomes -/

/-- A Go byte slice. -/
abbrev Bytes := List (Fin 256)

/-- The non-nil values of Go's `error` met in the package. -/
inductive GoError where
  | backend (msg : String)
  | unavailableBloomType (st : String)
  deriving DecidableEq, Repr

/-- Outcome of a Go call: it returns a value or it panics. -/
inductive Go (α : Type) where
  | ret (a : α)
  | panic
  deriving DecidableEq, Repr

/-! ## Standard-library hashes used by the package -/

/-- The constant `offset64` of `hash/fnv`. -/
def fnvOffset64 : Nat := 14695981039346656037

/-- The constant `prime64` of `hash/fnv`. -/
def fnvPrime64 : Nat := 1099511628211

/-- The hash of `fnv.New64()` after `Write(value)`: FNV-1, multiply then xor, on 64 bits. -/
def fnv64 (value : Bytes) : Nat :=
  value.foldl (fun hash c => ((hash * fnvPrime64) % 2 ^ 64) ^^^ c.val) fnvOffset64

/-- Per-round left rotations of MD5 (RFC 1321). -/
def md5Shift : List Nat :=
  [7, 12, 17, 22, 7, 12, 17, 22, 7, 12, 17, 22, 7, 12, 17, 22,
   5, 9, 14, 20, 5, 9, 14, 20, 5, 9, 14, 20, 5, 9, 14, 20,
   4, 11, 16, 23, 4, 11, 16, 23, 4, 11, 16, 23, 4, 11, 16, 23,
   6, 10, 15, 21, 6, 10, 15, 21, 6, 10, 15, 21, 6, 10, 15, 21]

/-- The sine table of MD5 (RFC 1321). -/
def md5Sine : List Nat :=
  [0xd76aa478, 0xe8c7b756, 0x242070db, 0xc1bdceee, 0xf57c0faf, 0x4787c62a, 0xa8304613, 0xfd469501,
   0x698098d8, 0x8b44f7af, 0xffff5bb1, 0x895cd7be, 0x6b901122, 0xfd987193, 0xa679438e, 0x49b40821,
   0xf61e2562, 0xc040b340, 0x265e5a51, 0xe9b6c7aa, 0xd62f105d, 0x02441453, 0xd8a1e681, 0xe7d3fbc8,
   0x21e1cde6, 0xc33707d6, 0xf4d50d87, 0x455a14ed, 0xa9e3e905, 0xfcefa3f8, 0x676f02d9, 0x8d2a4c8a,
   0xfffa3942, 0x8771f681, 0x6d9d6122, 0xfde5380c, 0xa4beea44, 0x4bdecfa9, 0xf6bb4b60, 0xbebfbc70,
   0x289b7ec6, 0xeaa127fa, 0xd4ef3085, 0x04881d05, 0xd9d4d039, 0xe6db99e5, 0x1fa27cf8, 0xc4ac5665,
   0xf4292244, 0x432aff97, 0xab9423a7, 0xfc93a039, 0x655b59c3, 0x8f0ccc92, 0xffeff47d, 0x85845dd1,
   0x6fa87e4f, 0xfe2ce6e0, 0xa3014314, 0x4e0811a1, 0xf7537e82, 0xbd3af235, 0x2ad7d2bb, 0xeb86d391]

/-- Rotate a 32-bit word left by `s` bits. -/
def rotl32 (x s : Nat) : Nat := ((x <<< s) % 2 ^ 32) ||| (x >>> (32 - s))

/-- Little-endian value of a list of bytes. -/
def leWord (bs : List Nat) : Nat := bs.foldr (fun b acc => b + 256 * acc) 0

/-- The `n` low bytes of `x`, least significant first. -/
def leBytes : Nat → Nat → List Nat
  | 0, _ => []
  | n + 1, x => x % 256 :: leBytes n (x / 256)

/-- The first `n` 32-bit little-endian words of a byte list. -/
def md5Words : Nat → List Nat → List Nat
  | 0, _ => []
  | n + 1, bs => leWord (bs.take 4) :: md5Words n (bs.drop 4)

/-- One of the 64 steps of the MD5 compression function. -/
def md5Step (w : List Nat) (st : Nat × Nat × Nat × Nat) (i : Nat) : Nat × Nat × Nat × Nat :=
  let (a, b, c, d) := st
  let nb := (2 ^ 32 - 1) ^^^ b
  let nd := (2 ^ 32 - 1) ^^^ d
  let f := if i < 16 then (b &&& c) ||| (nb &&& d)
    else if i < 32 then (d &&& b) ||| (nd &&& c)
    else if i < 48 then b ^^^ c ^^^ d
    else c ^^^ (b ||| nd)
  let g := if i < 16 then i
    else if i < 32 then (5 * i + 1) % 16
    else if i < 48 then (3 * i + 5) % 16
    else (7 * i) % 16
  let t := (a + f + md5Sine.getD i 0 + w.getD g 0) % 2 ^ 32
  (d, (b + rotl32 t (md5Shift.getD i 0)) % 2 ^ 32, b, c)

/-- MD5 compression of one 64-byte block. -/
def md5Block (st : Nat × Nat × Nat × Nat) (block : List Nat) : Nat × Nat × Nat × Nat :=
  let w := md5Words 16 block
  let (a, b, c, d) := (List.range 64).foldl (md5Step w) st
  ((st.1 + a) % 2 ^ 32, (st.2.1 + b) % 2 ^ 32, (st.2.2.1 + c) % 2 ^ 32, (st.2.2.2 + d) % 2 ^ 32)

/-- MD5 compression of the first `n` blocks of a byte list. -/
def md5Blocks : Nat → (Nat × Nat × Nat × Nat) → List Nat → Nat × Nat × Nat × Nat
  | 0, st, _ => st
  | n + 1, st, bs => md5Blocks n (md5Block st (bs.take 64)) (bs.drop 64)

/-- MD5 padding: a `0x80` byte, zeros up to 56 modulo 64, the bit length on 8 bytes. -/
def md5Pad (msg : List Nat) : List Nat :=
  let len := msg.length
  let zeros := (119 - len % 64) % 64
  msg ++ [0x80] ++ List.replicate zeros 0 ++ leBytes 8 ((8 * len) % 2 ^ 64)

/-- The 16 bytes returned by `md5.Sum(value)` of `crypto/md5`. -/
def md5Sum (value : Bytes) : Bytes :=
  let padded := md5Pad (value.map Fin.val)
  let (a, b, c, d) :=
    md5Blocks (padded.length / 64) (0x67452301, 0xefcdab89, 0x98badcfe, 0x10325476) padded
  (leBytes 4 a ++ leBytes 4 b ++ leBytes 4 c ++ leBytes 4 d).map (Fin.ofNat ·)

/-! ## The Redis server behind `*redis.Client` -/

/-- A Redis string seen as a bitmap: the offsets of its bits that are 1. -/
abbrev Bitmap := Finset Nat

/-- The key space: a key is absent (`none`) or holds a bitmap. -/
abbrev DB := String → Option Bitmap

/-- The key space with `key` bound to `v`. -/
def DB.set (db : DB) (key : String) (v : Option Bitmap) : DB :=
  fun k => if k = key then v else db k

/-- The bit of `key` at `offset`; an absent key reads as zeros (GETBIT). -/
def DB.bit (db : DB) (key : String) (offset : Nat) : Bool :=
  decide (offset ∈ (db key).getD ∅)

/-- The commands the package queues in a pipeline. -/
inductive Cmd where
  | del (key : String)
  | setBit (key : String) (offset : Nat) (value : Bool)
  | getBit (key : String) (offset : Nat)
  deriving DecidableEq, Repr

/-- The integer reply for a bit. -/
def bitReply (b : Bool) : Int := if b then 1 else 0

/-- One command on the key space: the new key space and the integer reply.
DEL replies the number of keys removed, SETBIT the previous bit (creating the key when
absent), GETBIT the bit. -/
def Cmd.run : Cmd → DB → DB × Int
  | .del key, db => (db.set key none, if (db key).isSome then 1 else 0)
  | .setBit key offset value, db =>
      let bits := (db key).getD ∅
      (db.set key (some (if value then insert offset bits else bits.erase offset)),
        bitReply (db.bit key offset))
  | .getBit key offset, db => (db, bitReply (db.bit key offset))

/-- The commands of a MULTI/EXEC block run in order, each on the result of the previous. -/
def execCmds : List Cmd → DB → DB × List Int
  | [], db => (db, [])
  | cmd :: rest, db =>
      let (db1, r) := cmd.run db
      let (db2, rs) := execCmds rest db1
      (db2, r :: rs)

/-- A request sent to the server. -/
inductive Request where
  | existsKeys (keys : List String)
  | tx (cmds : List Cmd)
  deriving DecidableEq, Repr

/-- The server as the package sees it through `*redis.Client`: the key space and the
requests received so far. -/
structure Client where
  db : DB
  log : List Request

/-- Result of `pipe.Exec()` on a transaction pipeline holding `cmds`: with a fault the
error is returned and no command is applied; otherwise the replies, in order. -/
def Client.Exec (c : Client) (cmds : List Cmd) (fault : Option GoError) :
    Client × Except GoError (List Int) :=
  match fault with
  | some e => ({ c with log := c.log ++ [Request.tx cmds] }, .error e)
  | none =>
      let (db1, rs) := execCmds cmds c.db
      ({ db := db1, log := c.log ++ [Request.tx cmds] }, .ok rs)

/-- Result of `client.Exists(keys...).Result()`: how many of the keys exist. -/
def Client.Exists (c : Client) (keys : List String) (fault : Option GoError) :
    Client × Except GoError Int :=
  match fault with
  | some e => ({ c with log := c.log ++ [Request.existsKeys keys] }, .error e)
  | none =>
      ({ c with log := c.log ++ [Request.existsKeys keys] },
        .ok ((keys.filter fun k => (c.db k).isSome).length : Int))

/-! ## bloom.go: hashing and offsets -/

/-- Go `getOffset`: `(hash1 + hash2*iter) % size` on 64-bit `uint`; Go panics on a zero
divisor, here `none`. -/
def getOffset (hash1 hash2 iter size : Nat) : Option Nat :=
  if size = 0 then none else some ((hash1 + hash2 * iter) % 2 ^ 64 % size)

/-- Go `hashValue`: the big-endian halves `sum[0:4]` and `sum[4:8]` of the FNV-1 sum. -/
def hashValue (value : Bytes) : Nat × Nat :=
  let sum := fnv64 value
  (sum / 2 ^ 32, sum % 2 ^ 32)

/-! ## cache.go -/

/-- The constant `BucketNumber`. -/
def BucketNumber : Nat := 2 ^ 8

/-- The `[15]byte` keys of a bucket map. -/
abbrev CacheKey := List (Fin 256)

/-- Go `keyCache`: the 256 bucket maps (`inerMap` of each `safeMap`, a set of keys) and
the bucket size. -/
structure keyCache where
  buckets : Fin 256 → Finset CacheKey
  bucketSize : Nat

/-- Go `NewKeyCache`. -/
def NewKeyCache (cacheSize : Nat) : keyCache :=
  { buckets := fun _ => ∅, bucketSize := cacheSize / BucketNumber }

/-- Go `keyCache.getBucketKey`: bucket index `m[15]` and key `m[:15]` of the MD5 sum. -/
def keyCache.getBucketKey (value : Bytes) : Fin 256 × CacheKey :=
  let m := md5Sum value
  (m.getD 15 0, m.take 15)

/-- Go `keyCache.Reset`: every bucket gets a new empty map. -/
def keyCache.Reset (kc : keyCache) : keyCache :=
  { kc with buckets := fun _ => ∅ }

/-- The insertion shared by `Load` and `CheckAndLoad`: a bucket holding at least
`bucketSize` keys is replaced by a new map, then the key is stored. -/
def keyCache.store (kc : keyCache) (index : Fin 256) (key : CacheKey) : keyCache :=
  let inerMap := kc.buckets index
  let inerMap := if inerMap.card ≥ kc.bucketSize then ∅ else inerMap
  { kc with buckets := fun i => if i = index then insert key inerMap else kc.buckets i }

/-- Go `keyCache.Load`. -/
def keyCache.Load (kc : keyCache) (value : Bytes) : keyCache :=
  if value.length = 0 then kc
  else
    let (index, key) := keyCache.getBucketKey value
    kc.store index key

/-- Go `keyCache.Check`. -/
def keyCache.Check (kc : keyCache) (value : Bytes) : Bool :=
  if value.length = 0 then false
  else
    let (index, key) := keyCache.getBucketKey value
    decide (key ∈ kc.buckets index)

/-- Go `keyCache.CheckAndLoad`: the cache after the call and the returned boolean. -/
def keyCache.CheckAndLoad (kc : keyCache) (value : Bytes) : keyCache × Bool :=
  if value.length = 0 then (kc, false)
  else
    let (index, key) := keyCache.getBucketKey value
    if key ∈ kc.buckets index then (kc, true)
    else (kc.store index key, false)

/-- Go `keyCache.Remove`: the cache after the call and the returned boolean. -/
def keyCache.Remove (kc : keyCache) (value : Bytes) : keyCache × Bool :=
  if value.length = 0 then (kc, false)
  else
    let (index, key) := keyCache.getBucketKey value
    if key ∈ kc.buckets index then
      ({ kc with buckets := fun i => if i = index then (kc.buckets index).erase key
                                     else kc.buckets i }, true)
    else (kc, false)

/-! ## redis.go -/

/-- Go `RedisStorage`. The field `key` is `s.bf.key`, the only part of the back pointer
`bf` the storage reads; `client` is passed to each operation as a `Client`. -/
structure RedisStorage where
  key : String
  filters : List String
  hashIter : Nat
  size : Nat

/-- Go `RedisStorage.getRedisKey`: `fmt.Sprintf("%s.%d", s.bf.key, i)`. -/
def RedisStorage.getRedisKey (s : RedisStorage) (i : Nat) : String :=
  s.key ++ "." ++ toString i

/-- The slice kept by the constructor has one cell per hash iteration:
`filters: make([]filter, hashIter)`, never resized afterwards. -/
def RedisStorage.WF (s : RedisStorage) : Prop :=
  s.filters.length = s.hashIter

instance (s : RedisStorage) : Decidable s.WF :=
  inferInstanceAs (Decidable (s.filters.length = s.hashIter))

/-- The loop `for index, fkey := range s.filters` of `Append`, `Exists` and
`ExistsAndAppend`, started at `index`: the pairs (key, `getOffset(hash1, hash2,
uint(index+1), size)`), or `none` when `getOffset` panics. -/
def planeOffsets (hash1 hash2 size : Nat) : Nat → List String → Option (List (String × Nat))
  | _, [] => some []
  | index, fkey :: rest =>
      match getOffset hash1 hash2 (index + 1) size with
      | none => none
      | some offset =>
          match planeOffsets hash1 hash2 size (index + 1) rest with
          | none => none
          | some tl => some ((fkey, offset) :: tl)

/-- The pairs (plane key, offset) a value is mapped to by the storage. -/
def RedisStorage.offsets (s : RedisStorage) (value : Bytes) : Option (List (String × Nat)) :=
  let (hash1, hash2) := hashValue value
  planeOffsets hash1 hash2 s.size 0 s.filters

/-- The SETBIT-to-1 commands queued for a list of (key, offset) pairs. -/
def setCmds (offs : List (String × Nat)) : List Cmd :=
  offs.map fun p => Cmd.setBit p.1 p.2 true

/-- The GETBIT commands queued for a list of (key, offset) pairs. -/
def getCmds (offs : List (String × Nat)) : List Cmd :=
  offs.map fun p => Cmd.getBit p.1 p.2

/-- The loop `for _, v := range res` of `Exists` and `ExistsAndAppend`: false at the first
reply different from 1; a cell of `res` that was never filled is a nil `*redis.IntCmd`,
whose `Val()` panics. -/
def allOne : List (Option Int) → Go Bool
  | [] => .ret true
  | none :: _ => .panic
  | some v :: rest => if v ≠ 1 then .ret false else allOne rest

/-- The slice `res := make([]*redis.IntCmd, s.hashIter)` once the replies are in. -/
def resCells (hashIter : Nat) (replies : List Int) : List (Option Int) :=
  replies.map some ++ List.replicate (hashIter - replies.length) none

/-- The keys `getRedisKey(k+1)` for `k = 0 .. hashIter-1`. -/
def RedisStorage.planeKeys (s : RedisStorage) : List String :=
  (List.range s.hashIter).map fun k => s.getRedisKey (k + 1)

/-- The commands queued by the loop of `Init`: for each `k < s.hashIter`, `Del` of the
plane key then `SetBit(key, int64(s.size), 0)`. -/
def RedisStorage.initCmds (s : RedisStorage) : List Cmd :=
  (List.range s.hashIter).flatMap fun k =>
    [Cmd.del (s.getRedisKey (k + 1)), Cmd.setBit (s.getRedisKey (k + 1)) s.size false]

/-- Go `RedisStorage.Init`. The arguments `hashIter` and `size` are not used by the body,
which works with `s.hashIter` and `s.size`; the returned error is always nil. -/
def RedisStorage.Init (s : RedisStorage) (c : Client) (_hashIter _size : Nat)
    (fault : Option GoError) : Go (RedisStorage × Client × Option GoError) :=
  if s.filters.length < s.hashIter then .panic
  else
    let ks := List.range s.hashIter
    let filters1 := ks.foldl (fun fs k => fs.set k (s.getRedisKey (k + 1))) s.filters
    match c.Exec s.initCmds fault with
    | (c1, .error _) =>
        .ret ({ s with filters := ks.foldl (fun fs k => fs.set k "") filters1 }, c1, none)
    | (c1, .ok _) => .ret ({ s with filters := filters1 }, c1, none)

/-- Go `NewRedisStorage`; `bfKey` is `bf.key`. The result is the pair `(*RedisStorage, error)`. -/
def NewRedisStorage (c : Client) (bfKey : String) (_key : String) (hashIter size : Nat)
    (faultExists faultInit : Option GoError) :
    Go (Client × Option RedisStorage × Option GoError) :=
  let store : RedisStorage :=
    { key := bfKey, filters := List.replicate hashIter "", hashIter := hashIter, size := size }
  match c.Exists store.planeKeys faultExists with
  | (c1, .error e) => .ret (c1, none, some e)
  | (c1, .ok n) =>
      if n.toNat < store.hashIter then
        match store.Init c1 hashIter store.size faultInit with
        | .panic => .panic
        | .ret (store1, c2, err) =>
            match err with
            | some e => .ret (c2, none, some e)
            | none => .ret (c2, some store1, none)
      else .ret (c1, some store, none)

/-- Go `RedisStorage.Append`. -/
def RedisStorage.Append (s : RedisStorage) (c : Client) (value : Bytes)
    (fault : Option GoError) : Go (Client × Option GoError) :=
  match s.offsets value with
  | none => .panic
  | some offs =>
      match c.Exec (setCmds offs) fault with
      | (c1, .error e) => .ret (c1, some e)
      | (c1, .ok _) => .ret (c1, none)

/-- Go `RedisStorage.Exists`. -/
def RedisStorage.Exists (s : RedisStorage) (c : Client) (value : Bytes)
    (fault : Option GoError) : Go (Client × Bool × Option GoError) :=
  match s.offsets value with
  | none => .panic
  | some offs =>
      if s.hashIter < offs.length then .panic
      else
        match c.Exec (getCmds offs) fault with
        | (c1, .error e) => .ret (c1, false, some e)
        | (c1, .ok replies) =>
            match allOne (resCells s.hashIter replies) with
            | .panic => .panic
            | .ret r => .ret (c1, r, none)

/-- Go `RedisStorage.ExistsAndAppend`. -/
def RedisStorage.ExistsAndAppend (s : RedisStorage) (c : Client) (value : Bytes)
    (fault : Option GoError) : Go (Client × Bool × Option GoError) :=
  match s.offsets value with
  | none => .panic
  | some offs =>
      if s.hashIter < offs.length then .panic
      else
        match c.Exec (setCmds offs) fault with
        | (c1, .error e) => .ret (c1, false, some e)
        | (c1, .ok replies) =>
            match allOne (resCells s.hashIter replies) with
            | .panic => .panic
            | .ret r => .ret (c1, r, none)

/-! ## storage.go and the facade of bloom.go -/

/-- Go `StorageType`, an `int`. -/
abbrev StorageType := Int

/-- The constant `Redis StorageType = iota`. -/
def Redis : StorageType := 0

/-- Go `BloomFilter`. The interface field `storage` holds the only implementation,
`*RedisStorage`; `cache` is `none` for a nil `*keyCache`; `p` is kept as a rational. -/
structure BloomFilter where
  key : String
  n : Nat
  p : ℚ
  storage : RedisStorage
  cache : Option keyCache

/-- Go `NewBloomFilter`. `estimate n p` stands for the two float64 lines
`size, hashIter := EstimateParameters(n, p)` and
`partitionSize := math.Ceil(float64(size) / float64(hashIter))`: it gives the pair
`(hashIter, uint(partitionSize))` handed to the storage. The result is the pair
`(*BloomFilter, error)`. -/
def NewBloomFilter (estimate : Nat → ℚ → Nat × Nat) (st : StorageType) (c : Client)
    (key : String) (n : Nat) (p : ℚ) (cacheSize : Nat)
    (faultExists faultInit : Option GoError) :
    Go (Client × Option BloomFilter × Option GoError) :=
  let cache := if cacheSize ≠ 0 then some (NewKeyCache cacheSize) else none
  let (hashIter, partitionSize) := estimate n p
  if st = Redis then
    match NewRedisStorage c key key hashIter partitionSize faultExists faultInit with
    | .panic => .panic
    | .ret (c1, _, some e) => .ret (c1, none, some e)
    | .ret (c1, none, none) => .ret (c1, none, none)
    | .ret (c1, some store, none) =>
        .ret (c1, some { key := key, n := n, p := p, storage := store, cache := cache }, none)
  else .ret (c, none, some (GoError.unavailableBloomType (toString st)))

/-- Go `BloomFilter.Append`: the filter (its cache may change), the server and the error. -/
def BloomFilter.Append (b : BloomFilter) (c : Client) (value : Bytes)
    (fault : Option GoError) : Go (BloomFilter × Client × Option GoError) :=
  let b1 : BloomFilter :=
    match b.cache with
    | some kc => { b with cache := some (kc.Load value) }
    | none => b
  match b1.storage.Append c value fault with
  | .panic => .panic
  | .ret (c1, err) => .ret (b1, c1, err)

/-- Go `BloomFilter.Exists`. -/
def BloomFilter.Exists (b : BloomFilter) (c : Client) (value : Bytes)
    (fault : Option GoError) : Go (BloomFilter × Client × Bool × Option GoError) :=
  match b.cache with
  | some kc =>
      if kc.Check value then .ret (b, c, true, none)
      else
        match b.storage.Exists c value fault with
        | .panic => .panic
        | .ret (c1, r, err) => .ret (b, c1, r, err)
  | none =>
      match b.storage.Exists c value fault with
      | .panic => .panic
      | .ret (c1, r, err) => .ret (b, c1, r, err)

/-- Go `BloomFilter.ExistsAndAppend`. -/
def BloomFilter.ExistsAndAppend (b : BloomFilter) (c : Client) (value : Bytes)
    (fault : Option GoError) : Go (BloomFilter × Client × Bool × Option GoError) :=
  match b.cache with
  | some kc =>
      let (kc1, ok) := kc.CheckAndLoad value
      let b1 : BloomFilter := { b with cache := some kc1 }
      if ok then .ret (b1, c, true, none)
      else
        match b1.storage.ExistsAndAppend c value fault with
        | .panic => .panic
        | .ret (c1, r, err) => .ret (b1, c1, r, err)
  | none =>
      match b.storage.ExistsAndAppend c value fault with
      | .panic => .panic
      | .ret (c1, r, err) => .ret (b, c1, r, err)

/-- Go `BloomFilter.Reset`; `estimate` as in `NewBloomFilter`. With a nil cache the call
`b.cache.Reset()` dereferences nil and panics. -/
def BloomFilter.Reset (estimate : Nat → ℚ → Nat × Nat) (b : BloomFilter) (c : Client)
    (n : Nat) (p : ℚ) (fault : Option GoError) :
    Go (BloomFilter × Client × Option GoError) :=
  let (hashIter, partitionSize) := estimate n p
  match b.storage.Init c hashIter partitionSize fault with
  | .panic => .panic
  | .ret (s1, c1, err) =>
      match err with
      | none =>
          match b.cache with
          | none => .panic
          | some kc => .ret ({ b with storage := s1, cache := some kc.Reset }, c1, none)
      | some e => .ret ({ b with storage := s1 }, c1, some e)

/-- A call of the facade other than `Reset`, with the fault its request meets. -/
inductive Call where
  | appendCall (value : Bytes) (fault : Option GoError)
  | existsCall (value : Bytes) (fault : Option GoError)
  | existsAndAppendCall (value : Bytes) (fault : Option GoError)

/-- One facade call on a filter and a server; the returned values are dropped. -/
def Call.run : Call → BloomFilter → Client → Go (BloomFilter × Client)
  | .appendCall v f, b, c =>
      match b.Append c v f with
      | .panic => .panic
      | .ret (b1, c1, _) => .ret (b1, c1)
  | .existsCall v f, b, c =>
      match b.Exists c v f with
      | .panic => .panic
      | .ret (b1, c1, _, _) => .ret (b1, c1)
  | .existsAndAppendCall v f, b, c =>
      match b.ExistsAndAppend c v f with
      | .panic => .panic
      | .ret (b1, c1, _, _) => .ret (b1, c1)

/-- A sequence of facade calls, in order. -/
def runCalls : List Call → BloomFilter → Client → Go (BloomFilter × Client)
  | [], b, c => .ret (b, c)
  | call :: rest, b, c =>
      match call.run b c with
      | .panic => .panic
      | .ret (b1, c1) => runCalls rest b1 c1

/-! ## Predicates used by the statements -/

/-- The pairs of `planeOffsets` when no offset panics, written without `Option`. -/
def planePairs (hash1 hash2 size : Nat) : Nat → List String → List (String × Nat)
  | _, [] => []
  | index, fkey :: rest =>
      (fkey, (hash1 + hash2 * (index + 1)) % 2 ^ 64 % size) ::
        planePairs hash1 hash2 size (index + 1) rest

/-- Every one of the k bits of `value` is set in the key space: for each plane index
`p` in `1..hashIter`, the bit of plane `p` (key `filters[p-1]`) at offset
`getOffset(hash1, hash2, p, size)`. -/
def RedisStorage.bitsSet (s : RedisStorage) (db : DB) (value : Bytes) : Prop :=
  ∀ p, 1 ≤ p → p ≤ s.hashIter →
    ∃ fkey off, s.filters[p - 1]? = some fkey ∧
      getOffset (hashValue value).1 (hashValue value).2 p s.size = some off ∧
      db.bit fkey off = true

/-- The (plane key, offset) pairs of a value when the size is positive. -/
def RedisStorage.pairs (s : RedisStorage) (value : Bytes) : List (String × Nat) :=
  planePairs (hashValue value).1 (hashValue value).2 s.size 0 s.filters

/-! ## Concrete data: the demonstration of main.go -/

/-- A server holding no key. -/
def emptyClient : Client := { db := fun _ => none, log := [] }

/-- The value `[]byte("hello")` of main.go. -/
def hello : Bytes := [104, 101, 108, 108, 111]

/-- The storage main.go builds on an empty server: key "bloomtestkey", 7 planes of
136930 bits (n = 100000, p = 0.01). -/
def demoStorage : RedisStorage :=
  { key := "bloomtestkey",
    filters := ["bloomtestkey.1", "bloomtestkey.2", "bloomtestkey.3", "bloomtestkey.4",
      "bloomtestkey.5", "bloomtestkey.6", "bloomtestkey.7"],
    hashIter := 7,
    size := 136930 }

/-- The values of lines 38-39 and 93-94 of bloom.go at the inputs used below, worked out
by hand as `(hashIter, partitionSize)`: (n, p) = (100000, 0.01) gives m = 958506, k = 7 and
136930 bits per plane; (n, p) = (1000, 0.001) gives m = 14378, k = 10 and 1438 bits per
plane. -/
def demoEstimate : Nat → ℚ → Nat × Nat :=
  fun n _ => if n = 1000 then (10, 1438) else (7, 136930)

/-- The filter main.go builds on an empty server, with its cache of 10000 entries. -/
def demoFilter : BloomFilter :=
  { key := "bloomtestkey", n := 100000, p := 1 / 100, storage := demoStorage,
    cache := some (NewKeyCache 10000) }

/-- The filter of main.go once `hello` has been appended: its cache holds `hello`. -/
def demoFilterLoaded : BloomFilter :=
  { demoFilter with cache := some ((NewKeyCache 10000).Load hello) }

/-- The server after another process has appended `[]byte("a")` through the storage of
main.go: the seven bits of that value are set, the bits of `hello` are not. -/
def letterClient : Client :=
  match demoStorage.Append emptyClient [97] none with
  | .ret (c, _) => c
  | .panic => emptyClient

/-! ## Scenarios evaluated below -/

/-- A faulty answer of the server. -/
def connectionReset : Option GoError := some (GoError.backend "connection reset by peer")

/-- The server after main.go has built its filter once on an empty server: the seven
plane keys exist. -/
def usedClient : Client :=
  match NewBloomFilter demoEstimate Redis emptyClient "bloomtestkey" 100000 (1 / 100) 10000
      none none with
  | .ret (c, _, _) => c
  | .panic => emptyClient

/-- A filter with a cache is built over plane keys that already exist, `hello` is
appended, then `Reset` meets a failing transaction and `Exists(hello)` is asked.
The result: the error returned by `Append`, the error returned by `Reset`, and the pair
returned by `Exists`. -/
def resetFaultScenario : Option (Option GoError × Option GoError × Bool × Option GoError) :=
  match NewBloomFilter demoEstimate Redis usedClient "bloomtestkey" 100000 (1 / 100) 10000
      none none with
  | .ret (c1, some bf, none) =>
      match bf.Append c1 hello none with
      | .ret (bf1, c2, appendErr) =>
          match bf1.Reset demoEstimate c2 100000 (1 / 100) connectionReset with
          | .ret (bf2, c3, resetErr) =>
              match bf2.Exists c3 hello none with
              | .ret (_, _, r, err) => some (appendErr, resetErr, r, err)
              | .panic => none
          | .panic => none
      | .panic => none
  | _ => none

/-- The filter of main.go (7 planes of 136930 bits) is built on an empty server and then
reset with (n, p) = (1000, 0.001), every transaction succeeding. The result: the pair
`(hashIter, partitionSize)` handed to `Init`, the plane count and size of the storage after
the call, and the offsets the storage then uses for `hello`. -/
def resetReconfigureScenario : Option ((Nat × Nat) × Nat × Nat × Option (List (String × Nat))) :=
  match NewBloomFilter demoEstimate Redis emptyClient "bloomtestkey" 100000 (1 / 100) 10000
      none none with
  | .ret (c1, some bf, none) =>
      match bf.Reset demoEstimate c1 1000 (1 / 1000) none with
      | .ret (bf1, _, none) =>
          some (demoEstimate 1000 (1 / 1000), bf1.storage.hashIter, bf1.storage.size,
            bf1.storage.offsets hello)
      | _ => none
  | _ => none

/-- The cache answer for a value on a filter; false without a cache. -/
def BloomFilter.cached (b : BloomFilter) (value : Bytes) : Bool :=
  match b.cache with
  | some kc => kc.Check value
  | none => false

/-- The filter of main.go is built on an empty server, `hello` is appended, then `Reset`
meets a failing transaction. The result: whether `hello` is in the cache before the
reset, the error returned by `Reset`, whether `hello` is in the cache afterwards. -/
def resetSwallowScenario : Option (Bool × Option GoError × Bool) :=
  match NewBloomFilter demoEstimate Redis emptyClient "bloomtestkey" 100000 (1 / 100) 10000
      none none with
  | .ret (c1, some bf, none) =>
      match bf.Append c1 hello none with
      | .ret (bf1, c2, none) =>
          match bf1.Reset demoEstimate c2 100000 (1 / 100) connectionReset with
          | .ret (bf2, _, resetErr) => some (bf1.cached hello, resetErr, bf2.cached hello)
          | .panic => none
      | _ => none
  | _ => none

/-- Two filters over the same server, key, n and p, without cache: the first is built on
an empty server and appends `hello`; the second is built afterwards. The result: the
filters of the first storage, the filters of the second, the pair returned by `Exists(hello)`
on the first instance and the pair returned by `Exists(hello)` on the second. -/
def secondInstanceScenario :
    Option (List String × List String × (Bool × Option GoError) × (Bool × Option GoError)) :=
  match NewBloomFilter demoEstimate Redis emptyClient "bloomtestkey" 100000 (1 / 100) 0
      none none with
  | .ret (c1, some bf1, none) =>
      match bf1.Append c1 hello none with
      | .ret (bf1a, c2, none) =>
          match NewBloomFilter demoEstimate Redis c2 "bloomtestkey" 100000 (1 / 100) 0
              none none with
          | .ret (c3, some bf2, none) =>
              match bf1a.Exists c3 hello none, bf2.Exists c3 hello none with
              | .ret (_, _, r1, e1), .ret (_, _, r2, e2) =>
                  some (bf1.storage.filters, bf2.storage.filters, (r1, e1), (r2, e2))
              | _, _ => none
          | _ => none
      | _ => none
  | _ => none

/-! ## Sequences of cache calls -/

/-- A call on a `keyCache`. -/
inductive CacheOp where
  | load (value : Bytes)
  | check (value : Bytes)
  | checkAndLoad (value : Bytes)
  | remove (value : Bytes)
  | reset

/-- The cache after one call; `Check` only reads. -/
def CacheOp.run : CacheOp → keyCache → keyCache
  | .load v, kc => kc.Load v
  | .check _, kc => kc
  | .checkAndLoad v, kc => (kc.CheckAndLoad v).1
  | .remove v, kc => (kc.Remove v).1
  | .reset, kc => kc.Reset

/-- The cache after a sequence of calls, in order. -/
def runCacheOps : List CacheOp → keyCache → keyCache
  | [], kc => kc
  | op :: rest, kc => runCacheOps rest (op.run kc)

/-! ## Facade calls with their returned values -/

/-- The fault a facade call meets. -/
def Call.fault : Call → Option GoError
  | .appendCall _ f => f
  | .existsCall _ f => f
  | .existsAndAppendCall _ f => f

/-- The value a facade call is made on. -/
def Call.value : Call → Bytes
  | .appendCall v _ => v
  | .existsCall v _ => v
  | .existsAndAppendCall v _ => v

/-- One facade call with what it returns to the caller: the boolean (`none` for `Append`,
which returns only an error) and the error. -/
def Call.answer : Call → BloomFilter → Client →
    Go (BloomFilter × Client × Option Bool × Option GoError)
  | .appendCall v f, b, c =>
      match b.Append c v f with
      | .panic => .panic
      | .ret (b1, c1, err) => .ret (b1, c1, none, err)
  | .existsCall v f, b, c =>
      match b.Exists c v f with
      | .panic => .panic
      | .ret (b1, c1, r, err) => .ret (b1, c1, some r, err)
  | .existsAndAppendCall v f, b, c =>
      match b.ExistsAndAppend c v f with
      | .panic => .panic
      | .ret (b1, c1, r, err) => .ret (b1, c1, some r, err)

/-- A sequence of facade calls, in order, with the list of what each returned. -/
def traceCalls : List Call → BloomFilter → Client →
    Go (BloomFilter × Client × List (Option Bool × Option GoError))
  | [], b, c => .ret (b, c, [])
  | call :: rest, b, c =>
      match call.answer b c with
      | .panic => .panic
      | .ret (b1, c1, out) =>
          match traceCalls rest b1 c1 with
          | .panic => .panic
          | .ret (b2, c2, outs) => .ret (b2, c2, out :: outs)

/-- The first message of the MD5 collision of Wang and Yu (2004), 128 bytes. -/
def collisionA : Bytes :=
  [209, 49, 221, 2, 197, 230, 238, 196, 105, 61, 154, 6, 152, 175, 249, 92,
   47, 202, 181, 135, 18, 70, 126, 171, 64, 4, 88, 62, 184, 251, 127, 137,
   85, 173, 52, 6, 9, 244, 179, 2, 131, 228, 136, 131, 37, 113, 65, 90,
   8, 81, 37, 232, 247, 205, 201, 159, 217, 29, 189, 242, 128, 55, 60, 91,
   216, 130, 62, 49, 86, 52, 143, 91, 174, 109, 172, 212, 54, 201, 25, 198,
   221, 83, 226, 180, 135, 218, 3, 253, 2, 57, 99, 6, 210, 72, 205, 160,
   233, 159, 51, 66, 15, 87, 126, 232, 206, 84, 182, 112, 128, 168, 13, 30,
   198, 152, 33, 188, 182, 168, 131, 147, 150, 249, 101, 43, 111, 247, 42, 112]

/-- The second message of the collision: it differs from the first in six bytes and has
the same MD5 sum, 79054025255fb1a26e4bc422aef54eb4. -/
def collisionB : Bytes :=
  [209, 49, 221, 2, 197, 230, 238, 196, 105, 61, 154, 6, 152, 175, 249, 92,
   47, 202, 181, 7, 18, 70, 126, 171, 64, 4, 88, 62, 184, 251, 127, 137,
   85, 173, 52, 6, 9, 244, 179, 2, 131, 228, 136, 131, 37, 241, 65, 90,
   8, 81, 37, 232, 247, 205, 201, 159, 217, 29, 189, 114, 128, 55, 60, 91,
   216, 130, 62, 49, 86, 52, 143, 91, 174, 109, 172, 212, 54, 201, 25, 198,
   221, 83, 226, 52, 135, 218, 3, 253, 2, 57, 99, 6, 210, 72, 205, 160,
   233, 159, 51, 66, 15, 87, 126, 232, 206, 84, 182, 112, 128, 40, 13, 30,
   198, 152, 33, 188, 182, 168, 131, 147, 150, 249, 101, 171, 111, 247, 42, 112]

/-- The answers of a sequence of calls on the filter of main.go built on an empty server
with the given cache size (0: no cache); `none` if the construction fails or a call
panics. -/
def demoAnswers (cacheSize : Nat) (calls : List Call) :
    Option (List (Option Bool × Option GoError)) :=
  match NewBloomFilter demoEstimate Redis emptyClient "bloomtestkey" 100000 (1 / 100)
      cacheSize none none with
  | .ret (c1, some bf, none) =>
      match traceCalls calls bf c1 with
      | .ret (_, _, outs) => some outs
      | .panic => none
  | _ => none

/-- The filter of main.go is built without cache (`cacheSize = 0`) on an empty server and
then reset, every transaction succeeding. The result: whether the filter has a cache, and
the outcome of `Reset`. -/
def resetNoCacheScenario : Option (Bool × Go (Option GoError)) :=
  match NewBloomFilter demoEstimate Redis emptyClient "bloomtestkey" 100000 (1 / 100) 0
      none none with
  | .ret (c1, some bf, none) =>
      match bf.Reset demoEstimate c1 100000 (1 / 100) none with
      | .ret (_, _, err) => some (bf.cache.isSome, .ret err)
      | .panic => some (bf.cache.isSome, .panic)
  | _ => none

/-- Every key held in the cache is the shard and key of a value of `seen` whose pairs
(plane key, offset) all have their bit set in the key space. -/
def CacheSound (s : RedisStorage) (kc : keyCache) (db : DB) (seen : List Bytes) : Prop :=
  ∀ i k, k ∈ kc.buckets i →
    ∃ v ∈ seen, keyCache.getBucketKey v = (i, k) ∧ ∀ q ∈ s.pairs v, db.bit q.1 q.2 = true

/-! ## bloom.go: parameter estimation, over exact real arithmetic -/

/-- Go `EstimateParameters` with its float64 operations read over the real numbers:
`m = ceil(n * ln p / ln(1 / 2^(ln 2)))`, `k = ln 2 * m / n + 0.5`, and the conversions
`uint(m)`, `uint(k)` truncate. A real-valued function of this kind is not executable; the
facade above takes the values of these lines as the parameter `estimate`. -/
noncomputable def EstimateParameters (n : Nat) (p : ℝ) : Nat × Nat :=
  let m : ℝ := ⌈(n : ℝ) * Real.log p / Real.log (1 / (2 : ℝ) ^ Real.log 2)⌉
  let k : ℝ := Real.log 2 * m / (n : ℝ) + 0.5
  (⌊m⌋₊, ⌊k⌋₊)

/-- The line `partitionSize := math.Ceil(float64(size) / float64(hashIter))` followed by
`uint(partitionSize)`, read over exact arithmetic. With `hashIter = 0` the float quotient
is infinite or not a number and its conversion to `uint` is left to the implementation:
`none`. -/
def partitionSize (size hashIter : Nat) : Option Nat :=
  if hashIter = 0 then none else some ⌈(size : ℚ) / (hashIter : ℚ)⌉₊

/-! ## The key space under SETBIT and GETBIT -/

theorem DB.bit_set_same (db : DB) (key : String) (v : Bitmap) (off : Nat) :
    (db.set key (some v)).bit key off = decide (off ∈ v) := by
  simp [DB.bit, DB.set]

theorem DB.bit_set_other (db : DB) (key k : String) (v : Option Bitmap) (off : Nat)
    (h : k ≠ key) : (db.set key v).bit k off = db.bit k off := by
  simp [DB.bit, DB.set, h]

/-- SETBIT to 1 sets its own bit. -/
theorem run_setBit_self (db : DB) (key : String) (off : Nat) :
    (Cmd.run (.setBit key off true) db).1.bit key off = true := by
  simp [Cmd.run, DB.bit_set_same]

/-- SETBIT to 1 keeps every bit that is set. -/
theorem run_setBit_mono (db : DB) (key k : String) (off o : Nat) (h : db.bit k o = true) :
    (Cmd.run (.setBit key off true) db).1.bit k o = true := by
  by_cases hk : k = key
  · subst hk
    simp only [Cmd.run, DB.bit_set_same, if_true]
    simp only [DB.bit, decide_eq_true_eq] at h
    simp [h]
  · simpa [Cmd.run, DB.bit_set_other _ _ _ _ _ hk] using h

/-- SETBIT to 1 of a bit that is set leaves the key space as it is. -/
theorem run_setBit_of_bit (db : DB) (key : String) (off : Nat) (h : db.bit key off = true) :
    (Cmd.run (.setBit key off true) db).1 = db := by
  funext k
  simp only [Cmd.run, DB.set, if_true]
  by_cases hk : k = key
  · subst hk
    simp only [DB.bit, decide_eq_true_eq] at h
    cases hdb : db k with
    | none => simp [hdb] at h
    | some bits =>
        simp only [hdb, Option.getD_some] at h
        simp [hdb, Finset.insert_eq_of_mem h]
  · simp [hk]

theorem execCmds_length (cmds : List Cmd) (db : DB) :
    (execCmds cmds db).2.length = cmds.length := by
  induction cmds generalizing db with
  | nil => rfl
  | cons cmd rest ih => simp [execCmds, ih]

theorem execCmds_getCmds (offs : List (String × Nat)) (db : DB) :
    execCmds (getCmds offs) db = (db, offs.map fun p => bitReply (db.bit p.1 p.2)) := by
  induction offs with
  | nil => rfl
  | cons p rest ih =>
      simp only [getCmds, List.map_cons, execCmds, Cmd.run] at ih ⊢
      rw [ih]

theorem execCmds_setCmds_mono (offs : List (String × Nat)) (db : DB) (k : String) (o : Nat)
    (h : db.bit k o = true) : (execCmds (setCmds offs) db).1.bit k o = true := by
  induction offs generalizing db with
  | nil => simpa [setCmds, execCmds] using h
  | cons p rest ih =>
      simp only [setCmds, List.map_cons, execCmds] at ih ⊢
      exact ih _ (run_setBit_mono db p.1 k p.2 o h)

theorem execCmds_setCmds_bits (offs : List (String × Nat)) (db : DB) :
    ∀ p ∈ offs, (execCmds (setCmds offs) db).1.bit p.1 p.2 = true := by
  induction offs generalizing db with
  | nil => simp
  | cons q rest ih =>
      intro p hp
      simp only [setCmds, List.map_cons, execCmds] at ih ⊢
      rcases List.mem_cons.1 hp with rfl | hp
      · exact execCmds_setCmds_mono rest _ _ _ (run_setBit_self db _ _)
      · exact ih _ p hp

theorem execCmds_setCmds_of_bits (offs : List (String × Nat)) (db : DB)
    (h : ∀ p ∈ offs, db.bit p.1 p.2 = true) : (execCmds (setCmds offs) db).1 = db := by
  induction offs generalizing db with
  | nil => rfl
  | cons q rest ih =>
      simp only [setCmds, List.map_cons, execCmds] at ih ⊢
      have hq := run_setBit_of_bit db q.1 q.2 (h q (List.mem_cons_self _ _))
      rw [hq]
      exact ih db fun p hp => h p (List.mem_cons_of_mem _ hp)

theorem bitReply_eq_one (b : Bool) : bitReply b = 1 ↔ b = true := by
  cases b <;> simp [bitReply]

/-- The replies of the SETBIT commands are all 1 exactly when every bit was set before. -/
theorem execCmds_setCmds_replies (offs : List (String × Nat)) (db : DB) :
    (∀ r ∈ (execCmds (setCmds offs) db).2, r = 1) ↔ ∀ p ∈ offs, db.bit p.1 p.2 = true := by
  induction offs generalizing db with
  | nil => simp [setCmds, execCmds]
  | cons q rest ih =>
      simp only [setCmds, List.map_cons, execCmds, List.forall_mem_cons] at ih ⊢
      constructor
      · rintro ⟨h1, h2⟩
        have hq : db.bit q.1 q.2 = true := by
          simpa [Cmd.run, bitReply_eq_one] using h1
        rw [run_setBit_of_bit db q.1 q.2 hq] at h2
        exact ⟨hq, (ih db).1 h2⟩
      · rintro ⟨hq, h2⟩
        rw [run_setBit_of_bit db q.1 q.2 hq]
        exact ⟨by simpa [Cmd.run, bitReply_eq_one] using hq, (ih db).2 h2⟩

theorem allOne_map_some (replies : List Int) :
    allOne (replies.map some) = .ret (decide (∀ r ∈ replies, r = 1)) := by
  induction replies with
  | nil => simp [allOne]
  | cons r rest ih =>
      by_cases hr : r = 1
      · simp [allOne, hr, ih]
      · simp [allOne, hr]

theorem resCells_of_length (k : Nat) (replies : List Int) (h : replies.length = k) :
    resCells k replies = replies.map some := by
  simp [resCells, h]
/-! ## The plane loop -/

theorem planeOffsets_of_pos (hash1 hash2 size : Nat) (hsize : 0 < size) (index : Nat)
    (fs : List String) :
    planeOffsets hash1 hash2 size index fs = some (planePairs hash1 hash2 size index fs) := by
  induction fs generalizing index with
  | nil => rfl
  | cons f rest ih =>
      simp [planeOffsets, planePairs, getOffset, Nat.pos_iff_ne_zero.1 hsize, ih]

theorem planePairs_length (hash1 hash2 size index : Nat) (fs : List String) :
    (planePairs hash1 hash2 size index fs).length = fs.length := by
  induction fs generalizing index with
  | nil => rfl
  | cons f rest ih => simp [planePairs, ih]

theorem mem_planePairs (hash1 hash2 size index : Nat) (fs : List String) (q : String × Nat) :
    q ∈ planePairs hash1 hash2 size index fs ↔
      ∃ j, fs[j]? = some q.1 ∧ q.2 = (hash1 + hash2 * (index + j + 1)) % 2 ^ 64 % size := by
  induction fs generalizing index with
  | nil => simp [planePairs]
  | cons f rest ih =>
      simp only [planePairs, List.mem_cons, ih]
      constructor
      · rintro (rfl | ⟨j, hj, ho⟩)
        · exact ⟨0, by simp, by simp⟩
        · exact ⟨j + 1, by simpa using hj, by rw [ho, show index + 1 + j + 1 = index + (j + 1) + 1 by omega]⟩
      · rintro ⟨j, hj, ho⟩
        cases j with
        | zero =>
            left
            simp only [List.getElem?_cons_zero, Option.some.injEq] at hj
            exact Prod.ext hj.symm (by simpa using ho)
        | succ j =>
            right
            exact ⟨j, by simpa using hj, by rw [ho, show index + 1 + j + 1 = index + (j + 1) + 1 by omega]⟩

theorem RedisStorage.offsets_of_pos (s : RedisStorage) (value : Bytes) (hsize : 0 < s.size) :
    s.offsets value = some (s.pairs value) := by
  simp [RedisStorage.offsets, RedisStorage.pairs, planeOffsets_of_pos _ _ _ hsize]

/-- With one filter per hash iteration and a positive size, the k bits of a value are the
bits at the pairs built by the plane loop. -/
theorem RedisStorage.bitsSet_iff (s : RedisStorage) (db : DB) (value : Bytes)
    (hsize : 0 < s.size) (hwf : s.WF) :
    s.bitsSet db value ↔ ∀ q ∈ s.pairs value, db.bit q.1 q.2 = true := by
  unfold RedisStorage.WF at hwf
  unfold RedisStorage.pairs
  constructor
  · intro h q hq
    obtain ⟨j, hj, ho⟩ := (mem_planePairs _ _ _ _ _ _).1 hq
    have hlt : j < s.filters.length := by
      by_contra hge
      rw [List.getElem?_eq_none (by omega)] at hj
      cases hj
    obtain ⟨fkey, off, hf, hoff, hbit⟩ := h (j + 1) (by omega) (by omega)
    simp only [Nat.add_sub_cancel] at hf
    rw [hj] at hf
    simp only [getOffset, Nat.pos_iff_ne_zero.1 hsize, if_false, Option.some.injEq] at hoff
    cases hf
    rw [ho, Nat.zero_add]
    rw [← hoff] at hbit
    exact hbit
  · intro h p hp1 hpk
    have hlt : p - 1 < s.filters.length := by omega
    refine ⟨s.filters[p - 1],
      ((hashValue value).1 + (hashValue value).2 * p) % 2 ^ 64 % s.size,
      List.getElem?_eq_getElem hlt, by simp [getOffset, Nat.pos_iff_ne_zero.1 hsize], ?_⟩
    refine h (s.filters[p - 1], _) ((mem_planePairs _ _ _ _ _ _).2 ⟨p - 1, ?_, ?_⟩)
    · exact List.getElem?_eq_getElem hlt
    · simp only [Nat.zero_add]
      rw [Nat.sub_add_cancel hp1]
/-! ## The storage operations, evaluated -/

theorem RedisStorage.pairs_length (s : RedisStorage) (value : Bytes) :
    (s.pairs value).length = s.filters.length :=
  planePairs_length _ _ _ _ _

theorem RedisStorage.Append_ok (s : RedisStorage) (c : Client) (value : Bytes)
    (hsize : 0 < s.size) :
    s.Append c value none =
      .ret ({ db := (execCmds (setCmds (s.pairs value)) c.db).1,
              log := c.log ++ [Request.tx (setCmds (s.pairs value))] }, none) := by
  simp [RedisStorage.Append, RedisStorage.offsets_of_pos s value hsize, Client.Exec]

theorem RedisStorage.Append_fault (s : RedisStorage) (c : Client) (value : Bytes)
    (hsize : 0 < s.size) (e : GoError) :
    s.Append c value (some e) =
      .ret ({ db := c.db, log := c.log ++ [Request.tx (setCmds (s.pairs value))] }, some e) := by
  simp [RedisStorage.Append, RedisStorage.offsets_of_pos s value hsize, Client.Exec]

theorem RedisStorage.Exists_ok (s : RedisStorage) (c : Client) (value : Bytes)
    (hsize : 0 < s.size) (hwf : s.WF) :
    s.Exists c value none =
      .ret ({ db := c.db, log := c.log ++ [Request.tx (getCmds (s.pairs value))] },
            decide (∀ q ∈ s.pairs value, c.db.bit q.1 q.2 = true), none) := by
  have hlen : ¬ s.hashIter < (s.pairs value).length := by
    rw [s.pairs_length, hwf]; omega
  have hcells : resCells s.hashIter ((s.pairs value).map fun p => bitReply (c.db.bit p.1 p.2))
      = ((s.pairs value).map fun p => bitReply (c.db.bit p.1 p.2)).map some :=
    resCells_of_length _ _ (by rw [List.length_map, s.pairs_length, hwf])
  simp only [RedisStorage.Exists, RedisStorage.offsets_of_pos s value hsize, hlen, if_false,
    Client.Exec, execCmds_getCmds, hcells, allOne_map_some]
  have hiff : (∀ r ∈ (s.pairs value).map (fun p => bitReply (c.db.bit p.1 p.2)), r = 1) ↔
      ∀ q ∈ s.pairs value, c.db.bit q.1 q.2 = true := by
    constructor
    · intro h q hq
      exact (bitReply_eq_one _).1 (h _ (List.mem_map.2 ⟨q, hq, rfl⟩))
    · intro h r hr
      obtain ⟨q, hq, rfl⟩ := List.mem_map.1 hr
      exact (bitReply_eq_one _).2 (h q hq)
  simp only [hiff]

theorem RedisStorage.Exists_fault (s : RedisStorage) (c : Client) (value : Bytes)
    (hsize : 0 < s.size) (hwf : s.WF) (e : GoError) :
    s.Exists c value (some e) =
      .ret ({ db := c.db, log := c.log ++ [Request.tx (getCmds (s.pairs value))] },
            false, some e) := by
  have hlen : ¬ s.hashIter < (s.pairs value).length := by
    rw [s.pairs_length, hwf]; omega
  simp [RedisStorage.Exists, RedisStorage.offsets_of_pos s value hsize, hlen, Client.Exec]

theorem RedisStorage.ExistsAndAppend_ok (s : RedisStorage) (c : Client) (value : Bytes)
    (hsize : 0 < s.size) (hwf : s.WF) :
    s.ExistsAndAppend c value none =
      .ret ({ db := (execCmds (setCmds (s.pairs value)) c.db).1,
              log := c.log ++ [Request.tx (setCmds (s.pairs value))] },
            decide (∀ q ∈ s.pairs value, c.db.bit q.1 q.2 = true), none) := by
  have hlen : ¬ s.hashIter < (s.pairs value).length := by
    rw [s.pairs_length, hwf]; omega
  have hcells : resCells s.hashIter (execCmds (setCmds (s.pairs value)) c.db).2
      = (execCmds (setCmds (s.pairs value)) c.db).2.map some :=
    resCells_of_length _ _ (by
      rw [execCmds_length, setCmds, List.length_map, s.pairs_length, hwf])
  simp only [RedisStorage.ExistsAndAppend, RedisStorage.offsets_of_pos s value hsize, hlen,
    if_false, Client.Exec, hcells, allOne_map_some, execCmds_setCmds_replies]

theorem RedisStorage.ExistsAndAppend_fault (s : RedisStorage) (c : Client) (value : Bytes)
    (hsize : 0 < s.size) (hwf : s.WF) (e : GoError) :
    s.ExistsAndAppend c value (some e) =
      .ret ({ db := c.db, log := c.log ++ [Request.tx (setCmds (s.pairs value))] },
            false, some e) := by
  have hlen : ¬ s.hashIter < (s.pairs value).length := by
    rw [s.pairs_length, hwf]; omega
  simp [RedisStorage.ExistsAndAppend, RedisStorage.offsets_of_pos s value hsize, hlen,
    Client.Exec]
/-! ## Storage contracts -/

/-- C7: with a positive plane size, when the transaction succeeds `RedisStorage.Exists`
returns true exactly when, for every plane index p in 1..k, the bit of plane p at offset
`getOffset(h1, h2, p, size)` is set, and it leaves the key space unchanged. -/
theorem RedisStorage.Exists_iff_bitsSet (s : RedisStorage) (c : Client) (value : Bytes)
    (hsize : 0 < s.size) (hwf : s.WF) :
    ∃ c1 r, s.Exists c value none = .ret (c1, r, none) ∧
      (r = true ↔ s.bitsSet c.db value) ∧ c1.db = c.db := by
  refine ⟨_, _, s.Exists_ok c value hsize hwf, ?_, rfl⟩
  rw [s.bitsSet_iff c.db value hsize hwf, decide_eq_true_eq]

theorem RedisStorage.Exists_iff_bitsSet_witness :
    ∃ c1 r, demoStorage.Exists emptyClient hello none = .ret (c1, r, none) ∧
      (r = true ↔ demoStorage.bitsSet emptyClient.db hello) ∧ c1.db = emptyClient.db :=
  RedisStorage.Exists_iff_bitsSet demoStorage emptyClient hello (by decide) (by decide)

/-- C8: with a positive plane size, when the transaction succeeds
`RedisStorage.ExistsAndAppend` returns true exactly when every one of the k bits of the
value was set before the call; in both cases the k bits are set afterwards and the server
is left as `RedisStorage.Append` leaves it. -/
theorem RedisStorage.ExistsAndAppend_spec (s : RedisStorage) (c : Client) (value : Bytes)
    (hsize : 0 < s.size) (hwf : s.WF) :
    ∃ c1 r, s.ExistsAndAppend c value none = .ret (c1, r, none) ∧
      (r = true ↔ s.bitsSet c.db value) ∧ s.bitsSet c1.db value ∧
      s.Append c value none = .ret (c1, none) := by
  refine ⟨_, _, s.ExistsAndAppend_ok c value hsize hwf, ?_, ?_, s.Append_ok c value hsize⟩
  · rw [s.bitsSet_iff c.db value hsize hwf, decide_eq_true_eq]
  · rw [s.bitsSet_iff _ value hsize hwf]
    exact execCmds_setCmds_bits _ _

theorem RedisStorage.ExistsAndAppend_spec_witness :
    ∃ c1 r, demoStorage.ExistsAndAppend emptyClient hello none = .ret (c1, r, none) ∧
      (r = true ↔ demoStorage.bitsSet emptyClient.db hello) ∧
      demoStorage.bitsSet c1.db hello ∧
      demoStorage.Append emptyClient hello none = .ret (c1, none) :=
  RedisStorage.ExistsAndAppend_spec demoStorage emptyClient hello (by decide) (by decide)

/-- C9: `RedisStorage.Append` is idempotent on the key space: after two successful calls
for the same value the key space is what it was after the first, and a call never clears
a bit that was set. -/
theorem RedisStorage.Append_idempotent (s : RedisStorage) (c c1 c2 : Client)
    (value : Bytes) (f1 f2 : Option GoError)
    (h1 : s.Append c value f1 = .ret (c1, none))
    (h2 : s.Append c1 value f2 = .ret (c2, none)) :
    c2.db = c1.db ∧ ∀ key off, c.db.bit key off = true → c1.db.bit key off = true := by
  unfold RedisStorage.Append at h1 h2
  cases hoffs : s.offsets value with
  | none => simp [hoffs] at h1
  | some offs =>
      simp only [hoffs] at h1 h2
      cases f1 with
      | some e => simp [Client.Exec] at h1
      | none =>
          cases f2 with
          | some e => simp [Client.Exec] at h2
          | none =>
              simp only [Client.Exec, Go.ret.injEq, Prod.mk.injEq, and_true] at h1 h2
              subst h1
              subst h2
              exact ⟨execCmds_setCmds_of_bits offs _ (execCmds_setCmds_bits offs c.db),
                fun key off h => execCmds_setCmds_mono offs c.db key off h⟩

theorem RedisStorage.Append_idempotent_witness :
    ∃ c1 c2, demoStorage.Append emptyClient hello none = .ret (c1, none) ∧
      demoStorage.Append c1 hello none = .ret (c2, none) ∧
      c2.db = c1.db ∧ ∀ key off, emptyClient.db.bit key off = true → c1.db.bit key off = true :=
  ⟨_, _, RedisStorage.Append_ok demoStorage emptyClient hello (by decide),
    RedisStorage.Append_ok demoStorage _ hello (by decide),
    RedisStorage.Append_idempotent demoStorage emptyClient _ _ hello none none
      (RedisStorage.Append_ok demoStorage emptyClient hello (by decide))
      (RedisStorage.Append_ok demoStorage _ hello (by decide))⟩
/-! ## The facade -/

/-- Outcome of `RedisStorage.Append` for any fault: it returns, no bit is cleared, and
with a nil error the bits of the value are set. -/
theorem RedisStorage.Append_cases (s : RedisStorage) (c : Client) (value : Bytes)
    (fault : Option GoError) (hsize : 0 < s.size) :
    ∃ c1 err, s.Append c value fault = .ret (c1, err) ∧
      (∀ key off, c.db.bit key off = true → c1.db.bit key off = true) ∧
      (err = none → ∀ q ∈ s.pairs value, c1.db.bit q.1 q.2 = true) := by
  cases fault with
  | none =>
      exact ⟨_, _, s.Append_ok c value hsize,
        fun key off h => execCmds_setCmds_mono _ _ key off h,
        fun _ => execCmds_setCmds_bits _ _⟩
  | some e =>
      exact ⟨_, _, s.Append_fault c value hsize e, fun _ _ h => h, fun h => (by cases h)⟩

/-- Outcome of `RedisStorage.Exists` for any fault. -/
theorem RedisStorage.Exists_cases (s : RedisStorage) (c : Client) (value : Bytes)
    (fault : Option GoError) (hsize : 0 < s.size) (hwf : s.WF) :
    ∃ c1 r err, s.Exists c value fault = .ret (c1, r, err) ∧ c1.db = c.db ∧
      (fault = none → err = none) ∧
      (err = none → (r = true ↔ ∀ q ∈ s.pairs value, c.db.bit q.1 q.2 = true)) := by
  cases fault with
  | none =>
      exact ⟨_, _, _, s.Exists_ok c value hsize hwf, rfl, fun _ => rfl,
        fun _ => decide_eq_true_iff⟩
  | some e =>
      exact ⟨_, _, _, s.Exists_fault c value hsize hwf e, rfl, fun h => (by cases h),
        fun h => (by cases h)⟩

/-- Outcome of `RedisStorage.ExistsAndAppend` for any fault. -/
theorem RedisStorage.ExistsAndAppend_cases (s : RedisStorage) (c : Client) (value : Bytes)
    (fault : Option GoError) (hsize : 0 < s.size) (hwf : s.WF) :
    ∃ c1 r err, s.ExistsAndAppend c value fault = .ret (c1, r, err) ∧
      (∀ key off, c.db.bit key off = true → c1.db.bit key off = true) := by
  cases fault with
  | none =>
      exact ⟨_, _, _, s.ExistsAndAppend_ok c value hsize hwf,
        fun key off h => execCmds_setCmds_mono _ _ key off h⟩
  | some e =>
      exact ⟨_, _, _, s.ExistsAndAppend_fault c value hsize hwf e, fun _ _ h => h⟩

/-- A facade call other than `Reset` returns, keeps the storage configuration and clears
no bit. -/
theorem Call.run_cases (call : Call) (b : BloomFilter) (c : Client)
    (hsize : 0 < b.storage.size) (hwf : b.storage.WF) :
    ∃ b1 c1, call.run b c = .ret (b1, c1) ∧ b1.storage = b.storage ∧
      (∀ key off, c.db.bit key off = true → c1.db.bit key off = true) := by
  cases call with
  | appendCall v f =>
      cases hc : b.cache with
      | none =>
          obtain ⟨c1, err, h, hmono, -⟩ := b.storage.Append_cases c v f hsize
          exact ⟨b, c1, by simp [Call.run, BloomFilter.Append, hc, h], rfl, hmono⟩
      | some kc =>
          obtain ⟨c1, err, h, hmono, -⟩ := b.storage.Append_cases c v f hsize
          exact ⟨{ b with cache := some (kc.Load v) }, c1,
            by simp [Call.run, BloomFilter.Append, hc, h], rfl, hmono⟩
  | existsCall v f =>
      obtain ⟨c1, r, err, h, hdb, -, -⟩ := b.storage.Exists_cases c v f hsize hwf
      cases hc : b.cache with
      | none =>
          exact ⟨b, c1, by simp [Call.run, BloomFilter.Exists, hc, h], rfl,
            fun key off hb => by rw [hdb]; exact hb⟩
      | some kc =>
          by_cases hch : kc.Check v = true
          · exact ⟨b, c, by simp [Call.run, BloomFilter.Exists, hc, hch], rfl,
              fun _ _ hb => hb⟩
          · exact ⟨b, c1, by simp [Call.run, BloomFilter.Exists, hc, hch, h], rfl,
              fun key off hb => by rw [hdb]; exact hb⟩
  | existsAndAppendCall v f =>
      obtain ⟨c1, r, err, h, hmono⟩ := b.storage.ExistsAndAppend_cases c v f hsize hwf
      cases hc : b.cache with
      | none =>
          exact ⟨b, c1, by simp [Call.run, BloomFilter.ExistsAndAppend, hc, h], rfl, hmono⟩
      | some kc =>
          by_cases hch : (kc.CheckAndLoad v).2 = true
          · exact ⟨{ b with cache := some (kc.CheckAndLoad v).1 }, c,
              by simp [Call.run, BloomFilter.ExistsAndAppend, hc, hch], rfl,
              fun _ _ hb => hb⟩
          · exact ⟨{ b with cache := some (kc.CheckAndLoad v).1 }, c1,
              by simp [Call.run, BloomFilter.ExistsAndAppend, hc, hch, h], rfl, hmono⟩

/-- A sequence of facade calls without `Reset` returns, keeps the storage configuration
and clears no bit. -/
theorem runCalls_cases (calls : List Call) (b : BloomFilter) (c : Client)
    (hsize : 0 < b.storage.size) (hwf : b.storage.WF) :
    ∃ b1 c1, runCalls calls b c = .ret (b1, c1) ∧ b1.storage = b.storage ∧
      (∀ key off, c.db.bit key off = true → c1.db.bit key off = true) := by
  induction calls generalizing b c with
  | nil => exact ⟨b, c, rfl, rfl, fun _ _ h => h⟩
  | cons call rest ih =>
      obtain ⟨b1, c1, h1, hs1, hm1⟩ := call.run_cases b c hsize hwf
      obtain ⟨b2, c2, h2, hs2, hm2⟩ := ih b1 c1 (hs1 ▸ hsize) (hs1 ▸ hwf)
      exact ⟨b2, c2, by simp [runCalls, h1, h2], hs2.trans hs1,
        fun key off h => hm2 key off (hm1 key off h)⟩
/-- C10: on a filter with a cache, `BloomFilter.Exists` returns `(true, nil)` and sends
nothing to the server when `cache.Check` is true; otherwise it returns the pair of
`storage.Exists`; in both cases the filter, hence its cache, is returned unchanged. -/
theorem BloomFilter.Exists_with_cache (b : BloomFilter) (kc : keyCache) (c : Client)
    (value : Bytes) (fault : Option GoError) (hc : b.cache = some kc) :
    (kc.Check value = true → b.Exists c value fault = .ret (b, c, true, none)) ∧
    (kc.Check value = false →
      b.Exists c value fault =
        match b.storage.Exists c value fault with
        | .panic => .panic
        | .ret (c1, r, err) => .ret (b, c1, r, err)) := by
  constructor
  · intro h
    simp [BloomFilter.Exists, hc, h]
  · intro h
    simp [BloomFilter.Exists, hc, h]

theorem BloomFilter.Exists_with_cache_witness :
    (((NewKeyCache 10000).Load hello).Check hello = true ∧
      demoFilterLoaded.storage.Exists letterClient hello none
        = .ret ({ db := letterClient.db,
                  log := letterClient.log ++
                    [Request.tx (getCmds (demoStorage.pairs hello))] }, false, none) ∧
      demoFilterLoaded.Exists letterClient hello none
        = .ret (demoFilterLoaded, letterClient, true, none) ∧
      demoFilterLoaded.Exists letterClient hello connectionReset
        = .ret (demoFilterLoaded, letterClient, true, none)) ∧
    (((NewKeyCache 10000).Load hello).Check [97] = false ∧
      demoFilterLoaded.Exists letterClient [97] none
        = .ret (demoFilterLoaded,
            { db := letterClient.db,
              log := letterClient.log ++ [Request.tx (getCmds (demoStorage.pairs [97]))] },
            true, none)) := by
  have hstore : ∀ v, demoFilterLoaded.storage.Exists letterClient v none
      = .ret ({ db := letterClient.db,
                log := letterClient.log ++ [Request.tx (getCmds (demoStorage.pairs v))] },
              decide (∀ q ∈ demoStorage.pairs v, letterClient.db.bit q.1 q.2 = true), none) :=
    fun v => RedisStorage.Exists_ok demoStorage letterClient v (by decide) (by decide)
  have hhello : decide (∀ q ∈ demoStorage.pairs hello, letterClient.db.bit q.1 q.2 = true)
      = false := by decide
  have hletter : decide (∀ q ∈ demoStorage.pairs [97], letterClient.db.bit q.1 q.2 = true)
      = true := by decide
  refine ⟨⟨by decide, ?_, ?_, ?_⟩, by decide, ?_⟩
  · rw [hstore hello, hhello]
  · exact (BloomFilter.Exists_with_cache demoFilterLoaded ((NewKeyCache 10000).Load hello)
      letterClient hello none rfl).1 (by decide)
  · exact (BloomFilter.Exists_with_cache demoFilterLoaded ((NewKeyCache 10000).Load hello)
      letterClient hello connectionReset rfl).1 (by decide)
  · rw [(BloomFilter.Exists_with_cache demoFilterLoaded ((NewKeyCache 10000).Load hello)
      letterClient [97] none rfl).2 (by decide), hstore [97], hletter]

/-- The facade `Append` on a filter with a cache, when the transaction succeeds. -/
theorem BloomFilter.Append_ok_of_cache (b : BloomFilter) (kc : keyCache) (c : Client)
    (value : Bytes) (hc : b.cache = some kc) (hsize : 0 < b.storage.size) :
    b.Append c value none =
      .ret ({ b with cache := some (kc.Load value) },
            { db := (execCmds (setCmds (b.storage.pairs value)) c.db).1,
              log := c.log ++ [Request.tx (setCmds (b.storage.pairs value))] }, none) := by
  simp [BloomFilter.Append, hc, RedisStorage.Append_ok _ c value hsize]

/-- C1: no false negatives. After a facade `Append` of a value that returned no error,
and after any further sequence of `Append`, `Exists` and `ExistsAndAppend` calls (whatever
faults they meet), `Exists` of that value returns, and returns true whenever it returns
no error, which it does when its transaction succeeds. -/
theorem BloomFilter.no_false_negatives (b b1 : BloomFilter) (c c1 : Client) (value : Bytes)
    (fault : Option GoError) (hsize : 0 < b.storage.size) (hwf : b.storage.WF)
    (happ : b.Append c value fault = .ret (b1, c1, none))
    (calls : List Call) (f : Option GoError) :
    ∃ b2 c2, runCalls calls b1 c1 = .ret (b2, c2) ∧
      ∃ b3 c3 r err, b2.Exists c2 value f = .ret (b3, c3, r, err) ∧
        (f = none → err = none) ∧ (err = none → r = true) := by
  -- the bits of the value are set once `Append` has returned a nil error
  have key : b1.storage = b.storage ∧
      ∀ q ∈ b.storage.pairs value, c1.db.bit q.1 q.2 = true := by
    obtain ⟨c', err, h, -, hbits⟩ := b.storage.Append_cases c value fault hsize
    cases hc : b.cache with
    | none =>
        simp only [BloomFilter.Append, hc, h, Go.ret.injEq, Prod.mk.injEq] at happ
        obtain ⟨rfl, rfl, rfl⟩ := happ
        exact ⟨rfl, hbits rfl⟩
    | some kc =>
        simp only [BloomFilter.Append, hc, h, Go.ret.injEq, Prod.mk.injEq] at happ
        obtain ⟨rfl, rfl, rfl⟩ := happ
        exact ⟨rfl, hbits rfl⟩
  obtain ⟨hs1, hbits1⟩ := key
  obtain ⟨b2, c2, hrun, hs2, hmono⟩ :=
    runCalls_cases calls b1 c1 (hs1 ▸ hsize) (hs1 ▸ hwf)
  have hs : b2.storage = b.storage := hs2.trans hs1
  have hbits2 : ∀ q ∈ b2.storage.pairs value, c2.db.bit q.1 q.2 = true := by
    rw [hs]
    exact fun q hq => hmono _ _ (hbits1 q hq)
  refine ⟨b2, c2, hrun, ?_⟩
  obtain ⟨c3, r, err, h, -, hf, hr⟩ :=
    b2.storage.Exists_cases c2 value f (hs ▸ hsize) (hs ▸ hwf)
  cases hc : b2.cache with
  | none =>
      exact ⟨b2, c3, r, err, by simp [BloomFilter.Exists, hc, h], hf,
        fun he => (hr he).2 hbits2⟩
  | some kc =>
      by_cases hch : kc.Check value = true
      · exact ⟨b2, c2, true, none, by simp [BloomFilter.Exists, hc, hch], fun _ => rfl,
          fun _ => rfl⟩
      · exact ⟨b2, c3, r, err, by simp [BloomFilter.Exists, hc, hch, h], hf,
          fun he => (hr he).2 hbits2⟩

theorem BloomFilter.no_false_negatives_witness :
    ∃ b1 c1, demoFilter.Append emptyClient hello none = .ret (b1, c1, none) ∧
      ∃ b2 c2,
        runCalls [Call.appendCall [97] none, Call.existsAndAppendCall [98] (some (.backend "EOF")),
          Call.existsCall hello none] b1 c1 = .ret (b2, c2) ∧
        ∃ b3 c3 r err, b2.Exists c2 hello none = .ret (b3, c3, r, err) ∧
          ((none : Option GoError) = none → err = none) ∧ (err = none → r = true) :=
  have happ := BloomFilter.Append_ok_of_cache demoFilter (NewKeyCache 10000) emptyClient hello
    rfl (by decide)
  ⟨_, _, happ,
    BloomFilter.no_false_negatives demoFilter _ emptyClient _ hello none (by decide)
      (by decide) happ _ none⟩
/-! ## `Init` -/

theorem set_at_length (l₁ l₂ : List String) (a b : String) :
    (l₁ ++ a :: l₂).set l₁.length b = l₁ ++ b :: l₂ := by
  induction l₁ with
  | nil => rfl
  | cons x rest ih => simp [ih]

/-- Writing the cells `0 .. n-1` of a slice of length `n` one by one gives the list of
the written values. -/
theorem foldl_set_range (g : Nat → String) (m : Nat) (fs : List String) (hm : m ≤ fs.length) :
    (List.range m).foldl (fun fs k => fs.set k (g k)) fs
      = (List.range m).map g ++ fs.drop m := by
  induction m with
  | zero => simp
  | succ m ih =>
      have hlt : m < fs.length := by omega
      rw [List.range_succ, List.foldl_append, List.foldl_cons, List.foldl_nil, ih (by omega),
        List.map_append, List.map_singleton, List.append_assoc, List.singleton_append]
      have hlen : ((List.range m).map g).length = m := by simp
      rw [List.drop_eq_getElem_cons hlt]
      have hset := set_at_length ((List.range m).map g) (fs.drop (m + 1)) fs[m] (g m)
      rw [hlen] at hset
      rw [hset]

theorem foldl_set_range_full (g : Nat → String) (fs : List String) :
    (List.range fs.length).foldl (fun fs k => fs.set k (g k)) fs
      = (List.range fs.length).map g := by
  rw [foldl_set_range g fs.length fs (le_refl _)]
  simp

/-- `Init` when its transaction succeeds. -/
theorem RedisStorage.Init_ok (s : RedisStorage) (c : Client) (hashIter size : Nat)
    (hwf : s.WF) :
    s.Init c hashIter size none =
      .ret ({ s with filters := s.planeKeys },
            { db := (execCmds s.initCmds c.db).1, log := c.log ++ [Request.tx s.initCmds] },
            none) := by
  unfold RedisStorage.WF at hwf
  have h := foldl_set_range_full (fun k => s.getRedisKey (k + 1)) s.filters
  rw [hwf] at h
  simp [RedisStorage.Init, hwf, Client.Exec, h, RedisStorage.planeKeys]

/-- `Init` when its transaction fails: every filter becomes the empty key and the
returned error is nil. -/
theorem RedisStorage.Init_fault (s : RedisStorage) (c : Client) (hashIter size : Nat)
    (hwf : s.WF) (e : GoError) :
    s.Init c hashIter size (some e) =
      .ret ({ s with filters := List.replicate s.hashIter "" },
            { db := c.db, log := c.log ++ [Request.tx s.initCmds] }, none) := by
  unfold RedisStorage.WF at hwf
  have h := foldl_set_range_full (fun k => s.getRedisKey (k + 1)) s.filters
  rw [hwf] at h
  have h2 := foldl_set_range_full (fun _ => "") ((List.range s.hashIter).map
    fun k => s.getRedisKey (k + 1))
  simp only [List.length_map, List.length_range] at h2
  simp only [RedisStorage.Init, hwf, lt_irrefl, if_false, Client.Exec, h, h2]
  congr 3
  apply List.ext_getElem <;> simp

/-- DEL then SETBIT to 0 for each key of a list. -/
theorem RedisStorage.initCmds_eq (s : RedisStorage) :
    s.initCmds = s.planeKeys.flatMap fun key =>
      [Cmd.del key, Cmd.setBit key s.size false] := by
  simp [RedisStorage.initCmds, RedisStorage.planeKeys, List.flatMap_map]

theorem execCmds_zero_step (db : DB) (key k : String) (size off : Nat) :
    (execCmds [Cmd.del key, Cmd.setBit key size false] db).1.bit k off
      = if k = key then false else db.bit k off := by
  by_cases hk : k = key
  · subst hk
    simp [execCmds, Cmd.run, DB.bit, DB.set]
  · simp [execCmds, Cmd.run, DB.bit, DB.set, hk]

theorem execCmds_append (l₁ l₂ : List Cmd) (db : DB) :
    (execCmds (l₁ ++ l₂) db).1 = (execCmds l₂ (execCmds l₁ db).1).1 := by
  induction l₁ generalizing db with
  | nil => rfl
  | cons cmd rest ih => simp [execCmds, ih]

/-- After DEL and SETBIT to 0 of each key of a list, a key that was all zeros still is,
and every key of the list is all zeros. -/
theorem execCmds_zero (keys : List String) (size : Nat) (db : DB) (k : String)
    (h : k ∈ keys ∨ ∀ off, db.bit k off = false) (off : Nat) :
    (execCmds (keys.flatMap fun key => [Cmd.del key, Cmd.setBit key size false]) db).1.bit
      k off = false := by
  induction keys generalizing db with
  | nil =>
      rcases h with h | h
      · cases h
      · simpa [execCmds] using h off
  | cons key rest ih =>
      rw [List.flatMap_cons, execCmds_append]
      apply ih
      by_cases hk : k = key
      · right
        intro o
        rw [execCmds_zero_step, if_pos hk]
      · rcases h with h | h
        · rcases List.mem_cons.1 h with h | h
          · exact absurd h hk
          · exact Or.inl h
        · right
          intro o
          rw [execCmds_zero_step, if_neg hk]
          exact h o
/-! ## Well-formedness is established by the constructor and kept by `Init` -/

theorem RedisStorage.Init_WF (s s1 : RedisStorage) (c c1 : Client) (hashIter size : Nat)
    (fault : Option GoError) (err : Option GoError) (hwf : s.WF)
    (h : s.Init c hashIter size fault = .ret (s1, c1, err)) :
    s1.WF ∧ s1.hashIter = s.hashIter ∧ s1.size = s.size ∧ err = none := by
  cases fault with
  | none =>
      rw [s.Init_ok c hashIter size hwf] at h
      simp only [Go.ret.injEq, Prod.mk.injEq] at h
      obtain ⟨rfl, -, rfl⟩ := h
      simp [RedisStorage.WF, RedisStorage.planeKeys]
  | some e =>
      rw [s.Init_fault c hashIter size hwf e] at h
      simp only [Go.ret.injEq, Prod.mk.injEq] at h
      obtain ⟨rfl, -, rfl⟩ := h
      simp [RedisStorage.WF]

theorem NewRedisStorage_WF (c c1 : Client) (bfKey key : String) (hashIter size : Nat)
    (f1 f2 : Option GoError) (s : RedisStorage)
    (h : NewRedisStorage c bfKey key hashIter size f1 f2 = .ret (c1, some s, none)) :
    s.WF ∧ s.hashIter = hashIter ∧ s.size = size := by
  have hwf0 : RedisStorage.WF
      { key := bfKey, filters := List.replicate hashIter "", hashIter := hashIter,
        size := size } := by
    simp [RedisStorage.WF]
  unfold NewRedisStorage at h
  cases f1 with
  | some e => simp [Client.Exists] at h
  | none =>
      simp only [Client.Exists] at h
      split at h
      · generalize hinit : RedisStorage.Init _ _ _ _ _ = r at h
        cases r with
        | panic => simp at h
        | ret r =>
            obtain ⟨s1, c2, err⟩ := r
            obtain ⟨h1, h2, h3, h4⟩ := RedisStorage.Init_WF _ _ _ _ _ _ _ _ hwf0 hinit
            subst h4
            simp only [Go.ret.injEq, Prod.mk.injEq, Option.some.injEq, and_true] at h
            obtain ⟨-, rfl⟩ := h
            exact ⟨h1, h2, h3⟩
      · simp only [Go.ret.injEq, Prod.mk.injEq, Option.some.injEq, and_true] at h
        obtain ⟨-, rfl⟩ := h
        exact ⟨hwf0, rfl, rfl⟩

/-! ## A filter that has just been reset -/

theorem keyCache.Reset_CheckAndLoad (kc : keyCache) (value : Bytes) :
    (kc.Reset.CheckAndLoad value).2 = false := by
  unfold keyCache.CheckAndLoad
  by_cases h : value.length = 0
  · simp [h]
  · simp [h, keyCache.Reset]

/-- `Reset` on a filter with a cache, when the transaction of `Init` succeeds. -/
theorem BloomFilter.Reset_ok (estimate : Nat → ℚ → Nat × Nat) (b : BloomFilter)
    (kc : keyCache) (c : Client) (n : Nat) (p : ℚ) (hc : b.cache = some kc)
    (hwf : b.storage.WF) :
    b.Reset estimate c n p none =
      .ret ({ b with storage := { b.storage with filters := b.storage.planeKeys },
                     cache := some kc.Reset },
            { db := (execCmds b.storage.initCmds c.db).1,
              log := c.log ++ [Request.tx b.storage.initCmds] }, none) := by
  simp [BloomFilter.Reset, RedisStorage.Init_ok _ c _ _ hwf, hc]

/-- The facade `ExistsAndAppend` on a filter with a cache, by the answer of the cache. -/
theorem BloomFilter.ExistsAndAppend_of_cache (b : BloomFilter) (kc : keyCache) (c : Client)
    (value : Bytes) (fault : Option GoError) (hc : b.cache = some kc) :
    b.ExistsAndAppend c value fault =
      if (kc.CheckAndLoad value).2 = true then
        .ret ({ b with cache := some (kc.CheckAndLoad value).1 }, c, true, none)
      else
        match b.storage.ExistsAndAppend c value fault with
        | .panic => .panic
        | .ret (c1, r, err) =>
            .ret ({ b with cache := some (kc.CheckAndLoad value).1 }, c1, r, err) := by
  simp only [BloomFilter.ExistsAndAppend, hc]

/-- C2: on a filter that has just been reset (the transaction of `Init` succeeded, so
every plane is zero and the cache is empty), with at least one plane of positive size
and no backend failure, two successive facade calls `ExistsAndAppend` of the same value
return false, then true. -/
theorem BloomFilter.ExistsAndAppend_twice_after_Reset (estimate : Nat → ℚ → Nat × Nat)
    (b : BloomFilter) (kc : keyCache) (c : Client) (n : Nat) (p : ℚ) (value : Bytes)
    (hc : b.cache = some kc) (hsize : 0 < b.storage.size) (hk : 0 < b.storage.hashIter)
    (hwf : b.storage.WF) :
    ∃ b1 c1, b.Reset estimate c n p none = .ret (b1, c1, none) ∧
      ∃ b2 c2, b1.ExistsAndAppend c1 value none = .ret (b2, c2, false, none) ∧
        ∃ b3 c3, b2.ExistsAndAppend c2 value none = .ret (b3, c3, true, none) := by
  refine ⟨_, _, b.Reset_ok estimate kc c n p hc hwf, ?_⟩
  -- the storage after the reset
  generalize hs1 : ({ b.storage with filters := b.storage.planeKeys } : RedisStorage) = s1
  have hsize1 : 0 < s1.size := by rw [← hs1]; exact hsize
  have hwf1 : s1.WF := by
    rw [← hs1]; simp [RedisStorage.WF, RedisStorage.planeKeys]
  have hfilters : s1.filters = b.storage.planeKeys := by rw [← hs1]
  -- every bit of the value is zero in the planes just initialised
  have hzero : ∀ q ∈ s1.pairs value,
      (execCmds b.storage.initCmds c.db).1.bit q.1 q.2 = false := by
    intro q hq
    obtain ⟨j, hj, -⟩ := (mem_planePairs _ _ _ _ _ _).1 hq
    have hmem : q.1 ∈ b.storage.planeKeys := by
      rw [← hfilters]
      exact List.getElem?_mem hj
    rw [RedisStorage.initCmds_eq]
    exact execCmds_zero _ _ _ _ (Or.inl hmem) _
  have hne : s1.pairs value ≠ [] := by
    intro h
    have hlen := s1.pairs_length value
    rw [h, hwf1, ← hs1] at hlen
    simp only [List.length_nil] at hlen
    omega
  obtain ⟨q0, hq0⟩ := List.exists_mem_of_ne_nil _ hne
  -- first call
  have hfirst : ¬ ∀ q ∈ s1.pairs value,
      (execCmds b.storage.initCmds c.db).1.bit q.1 q.2 = true := by
    intro h
    have h1 := h q0 hq0
    rw [hzero q0 hq0] at h1
    cases h1
  have hcall1 :
      BloomFilter.ExistsAndAppend
        { b with storage := s1, cache := some kc.Reset }
        { db := (execCmds b.storage.initCmds c.db).1,
          log := c.log ++ [Request.tx b.storage.initCmds] } value none =
      .ret ({ b with storage := s1, cache := some (kc.Reset.CheckAndLoad value).1 },
            { db := (execCmds (setCmds (s1.pairs value))
                      (execCmds b.storage.initCmds c.db).1).1,
              log := c.log ++ [Request.tx b.storage.initCmds] ++
                [Request.tx (setCmds (s1.pairs value))] }, false, none) := by
    rw [BloomFilter.ExistsAndAppend_of_cache _ kc.Reset _ _ _ rfl]
    simp only [keyCache.Reset_CheckAndLoad, Bool.false_eq_true, if_false]
    rw [RedisStorage.ExistsAndAppend_ok s1 _ value hsize1 hwf1]
    simp only [decide_eq_false hfirst]
  refine ⟨_, _, hcall1, ?_⟩
  -- second call
  rw [BloomFilter.ExistsAndAppend_of_cache _ (kc.Reset.CheckAndLoad value).1 _ _ _ rfl]
  by_cases hch : ((kc.Reset.CheckAndLoad value).1.CheckAndLoad value).2 = true
  · rw [if_pos hch]
    exact ⟨_, _, rfl⟩
  · rw [if_neg hch]
    simp only []
    rw [RedisStorage.ExistsAndAppend_ok s1 _ value hsize1 hwf1]
    have hall : ∀ q ∈ s1.pairs value,
        (execCmds (setCmds (s1.pairs value)) (execCmds b.storage.initCmds c.db).1).1.bit
          q.1 q.2 = true := execCmds_setCmds_bits _ _
    simp only [decide_eq_true hall]
    exact ⟨_, _, rfl⟩

theorem BloomFilter.ExistsAndAppend_twice_after_Reset_witness :
    ∃ b1 c1, demoFilter.Reset demoEstimate emptyClient 100000 (1 / 100) none
        = .ret (b1, c1, none) ∧
      ∃ b2 c2, b1.ExistsAndAppend c1 hello none = .ret (b2, c2, false, none) ∧
        ∃ b3 c3, b2.ExistsAndAppend c2 hello none = .ret (b3, c3, true, none) :=
  BloomFilter.ExistsAndAppend_twice_after_Reset demoEstimate demoFilter (NewKeyCache 10000)
    emptyClient 100000 (1 / 100) hello rfl (by decide) (by decide) (by decide)
/-- What does hold after a reset: when the transaction of `Init` succeeds, on a filter with
a cache and at least one plane of positive size, `Exists` returns false for every value,
whatever was appended before and whatever fault the lookup meets. -/
theorem BloomFilter.Exists_after_Reset_ok (estimate : Nat → ℚ → Nat × Nat)
    (b : BloomFilter) (kc : keyCache) (c : Client) (n : Nat) (p : ℚ) (value : Bytes)
    (f : Option GoError)
    (hc : b.cache = some kc) (hsize : 0 < b.storage.size) (hk : 0 < b.storage.hashIter)
    (hwf : b.storage.WF) :
    ∃ b1 c1, b.Reset estimate c n p none = .ret (b1, c1, none) ∧
      ∃ c2 err, b1.Exists c1 value f = .ret (b1, c2, false, err) := by
  refine ⟨_, _, b.Reset_ok estimate kc c n p hc hwf, ?_⟩
  generalize hs1 : ({ b.storage with filters := b.storage.planeKeys } : RedisStorage) = s1
  have hsize1 : 0 < s1.size := by rw [← hs1]; exact hsize
  have hwf1 : s1.WF := by
    rw [← hs1]; simp [RedisStorage.WF, RedisStorage.planeKeys]
  have hfilters : s1.filters = b.storage.planeKeys := by rw [← hs1]
  have hzero : ∀ q ∈ s1.pairs value,
      (execCmds b.storage.initCmds c.db).1.bit q.1 q.2 = false := by
    intro q hq
    obtain ⟨j, hj, -⟩ := (mem_planePairs _ _ _ _ _ _).1 hq
    have hmem : q.1 ∈ b.storage.planeKeys := by
      rw [← hfilters]
      exact List.getElem?_mem hj
    rw [RedisStorage.initCmds_eq]
    exact execCmds_zero _ _ _ _ (Or.inl hmem) _
  have hne : s1.pairs value ≠ [] := by
    intro h
    have hlen := s1.pairs_length value
    rw [h, hwf1, ← hs1] at hlen
    simp only [List.length_nil] at hlen
    omega
  obtain ⟨q0, hq0⟩ := List.exists_mem_of_ne_nil _ hne
  have hfirst : ¬ ∀ q ∈ s1.pairs value,
      (execCmds b.storage.initCmds c.db).1.bit q.1 q.2 = true := by
    intro h
    have h1 := h q0 hq0
    rw [hzero q0 hq0] at h1
    cases h1
  have hcheck : kc.Reset.Check value = false := by
    unfold keyCache.Check
    by_cases h : value.length = 0
    · simp [h]
    · simp [h, keyCache.Reset]
  have hlog : ∀ e : Option GoError,
      BloomFilter.Exists { b with storage := s1, cache := some kc.Reset }
        { db := (execCmds b.storage.initCmds c.db).1,
          log := c.log ++ [Request.tx b.storage.initCmds] } value f =
        .ret ({ b with storage := s1, cache := some kc.Reset },
          { db := (execCmds b.storage.initCmds c.db).1,
            log := c.log ++ [Request.tx b.storage.initCmds] ++
              [Request.tx (getCmds (s1.pairs value))] }, false, e) →
      ∃ c2 err, BloomFilter.Exists { b with storage := s1, cache := some kc.Reset }
        { db := (execCmds b.storage.initCmds c.db).1,
          log := c.log ++ [Request.tx b.storage.initCmds] } value f =
        .ret ({ b with storage := s1, cache := some kc.Reset }, c2, false, err) :=
    fun e h => ⟨_, e, h⟩
  cases f with
  | none =>
      apply hlog none
      simp only [BloomFilter.Exists, hcheck, Bool.false_eq_true, if_false]
      rw [RedisStorage.Exists_ok s1 _ value hsize1 hwf1]
      simp only [decide_eq_false hfirst]
  | some e =>
      apply hlog (some e)
      simp only [BloomFilter.Exists, hcheck, Bool.false_eq_true, if_false]
      rw [RedisStorage.Exists_fault s1 _ value hsize1 hwf1 e]

/-! ## Evaluations -/

/-- C3: a filter with a cache built over plane keys that already exist appends `hello`
without error; `Reset` then meets a failing transaction and still returns a nil error;
afterwards `Exists(hello)` returns `(true, nil)`. -/
theorem resetFaultScenario_eval :
    resetFaultScenario = some (none, none, true, none) := by
  decide

/-- C4: after `Reset(1000, 0.001)`, which hands 10 planes of 1438 bits to `Init`, the
storage still has 7 planes of 136930 bits and computes its offsets modulo 136930. -/
theorem resetReconfigureScenario_eval :
    resetReconfigureScenario =
      some ((10, 1438), 7, 136930,
        some [("bloomtestkey.1", 61390), ("bloomtestkey.2", 47349), ("bloomtestkey.3", 33308),
          ("bloomtestkey.4", 19267), ("bloomtestkey.5", 5226), ("bloomtestkey.6", 128115),
          ("bloomtestkey.7", 114074)]) := by
  rfl

/-- C5: when the transaction of `Init` fails during `Reset`, the facade returns a nil
error and the cache, which held `hello`, is emptied. -/
theorem resetSwallowScenario_eval :
    resetSwallowScenario = some (true, none, false) := by
  decide

/-- C6: a second filter built over the same server, key, n and p keeps the empty string
in every cell of `filters` and answers `(false, nil)` for the value the first filter
appended and still finds. -/
theorem secondInstanceScenario_eval :
    secondInstanceScenario =
      some (["bloomtestkey.1", "bloomtestkey.2", "bloomtestkey.3", "bloomtestkey.4",
          "bloomtestkey.5", "bloomtestkey.6", "bloomtestkey.7"],
        ["", "", "", "", "", "", ""], (true, none), (false, none)) := by
  decide
/-! ## The cache -/

theorem keyCache.store_bucketSize (kc : keyCache) (index : Fin 256) (key : CacheKey) :
    (kc.store index key).bucketSize = kc.bucketSize := rfl

theorem keyCache.store_buckets_self (kc : keyCache) (index : Fin 256) (key : CacheKey) :
    (kc.store index key).buckets index =
      insert key (if (kc.buckets index).card ≥ kc.bucketSize then ∅ else kc.buckets index) := by
  simp [keyCache.store]

theorem keyCache.store_buckets_other (kc : keyCache) (index i : Fin 256) (key : CacheKey)
    (h : i ≠ index) : (kc.store index key).buckets i = kc.buckets i := by
  simp [keyCache.store, h]

/-- The bound kept by every call: a bucket holds at most `bucketSize` keys, and at most one
when `bucketSize` is 0. -/
theorem keyCache.store_card (kc : keyCache) (index : Fin 256) (key : CacheKey)
    (h : ∀ i, (kc.buckets i).card ≤ max 1 kc.bucketSize) (i : Fin 256) :
    ((kc.store index key).buckets i).card ≤ max 1 kc.bucketSize := by
  by_cases hi : i = index
  · subst hi
    rw [keyCache.store_buckets_self]
    by_cases hfull : (kc.buckets i).card ≥ kc.bucketSize
    · rw [if_pos hfull]
      simp
    · rw [if_neg hfull]
      have := Finset.card_insert_le key (kc.buckets i)
      have hmax : kc.bucketSize ≤ max 1 kc.bucketSize := le_max_right _ _
      omega
  · rw [keyCache.store_buckets_other _ _ _ _ hi]
    exact h i

theorem CacheOp.run_card (op : CacheOp) (kc : keyCache)
    (h : ∀ i, (kc.buckets i).card ≤ max 1 kc.bucketSize) :
    (op.run kc).bucketSize = kc.bucketSize ∧
      ∀ i, ((op.run kc).buckets i).card ≤ max 1 kc.bucketSize := by
  cases op with
  | load v =>
      simp only [CacheOp.run, keyCache.Load]
      split
      · exact ⟨rfl, h⟩
      · exact ⟨rfl, keyCache.store_card kc _ _ h⟩
  | check v => exact ⟨rfl, h⟩
  | checkAndLoad v =>
      simp only [CacheOp.run, keyCache.CheckAndLoad]
      split
      · exact ⟨rfl, h⟩
      · split
        · exact ⟨rfl, h⟩
        · exact ⟨rfl, keyCache.store_card kc _ _ h⟩
  | remove v =>
      simp only [CacheOp.run, keyCache.Remove]
      split
      · exact ⟨rfl, h⟩
      · split
        · refine ⟨rfl, fun i => ?_⟩
          simp only
          split
          · exact le_trans (Finset.card_erase_le) (h _)
          · exact h i
        · exact ⟨rfl, h⟩
  | reset =>
      refine ⟨rfl, fun i => ?_⟩
      simp [CacheOp.run, keyCache.Reset]

theorem runCacheOps_card (ops : List CacheOp) (kc : keyCache)
    (h : ∀ i, (kc.buckets i).card ≤ max 1 kc.bucketSize) :
    ∀ i, ((runCacheOps ops kc).buckets i).card ≤ max 1 kc.bucketSize := by
  induction ops generalizing kc with
  | nil => exact h
  | cons op rest ih =>
      obtain ⟨hb, hc⟩ := op.run_card kc h
      have := ih (op.run kc) (by rw [hb]; exact hc)
      rw [hb] at this
      exact this

/-- C11, as the code has it: for `cacheSize ≥ 256`, so that the capacity `cacheSize / 256`
of a shard is at least 1, in every state reached from `NewKeyCache(cacheSize)` through
`Load`, `Check`, `CheckAndLoad`, `Remove` and `Reset` each shard holds at most
`cacheSize / 256` digests. -/
theorem keyCache.shard_capacity (cacheSize : Nat) (hsize : BucketNumber ≤ cacheSize)
    (ops : List CacheOp) (i : Fin 256) :
    ((runCacheOps ops (NewKeyCache cacheSize)).buckets i).card ≤ cacheSize / BucketNumber := by
  have h := runCacheOps_card ops (NewKeyCache cacheSize) (fun _ => by simp [NewKeyCache]) i
  have hpos : 1 ≤ cacheSize / BucketNumber :=
    (Nat.one_le_div_iff (by decide)).2 hsize
  simpa [NewKeyCache, max_eq_right hpos] using h

theorem keyCache.shard_capacity_witness :
    ((runCacheOps [CacheOp.load hello, CacheOp.checkAndLoad [97], CacheOp.remove hello]
        (NewKeyCache 10000)).buckets 146).card ≤ 10000 / BucketNumber :=
  keyCache.shard_capacity 10000 (by decide) _ 146

/-- C11 fails as stated: with `cacheSize = 100` the capacity is `100 / 256 = 0`, and after
`Load("hello")` the shard 146 of `hello` holds one digest. -/
theorem keyCache.shard_capacity_counterexample :
    ¬ ((runCacheOps [CacheOp.load hello] (NewKeyCache 100)).buckets 146).card
        ≤ 100 / BucketNumber := by
  decide

/-- C12, as the code has it: for a non-empty value, `Check` is true right after `Load`. -/
theorem keyCache.Check_Load (kc : keyCache) (value : Bytes) (hv : value ≠ []) :
    (kc.Load value).Check value = true := by
  have hlen : value.length ≠ 0 := fun h => hv (List.length_eq_zero.1 h)
  simp [keyCache.Load, keyCache.Check, hlen, keyCache.store_buckets_self]

theorem keyCache.Check_Load_witness :
    ((NewKeyCache 10000).Load hello).Check hello = true :=
  keyCache.Check_Load (NewKeyCache 10000) hello (by decide)

/-- C12 fails as stated: `Load` of the empty value returns at once and `Check` of the empty
value is false. -/
theorem keyCache.Check_Load_counterexample :
    ¬ ((NewKeyCache 10000).Load []).Check [] = true := by
  decide

/-- C13: for a non-empty value `CheckAndLoad` returns what `Check` returned before the
call; when that is true the cache is unchanged; when it is false `Check` is true
afterwards and only the shard of the value is modified. -/
theorem keyCache.CheckAndLoad_spec (kc : keyCache) (value : Bytes) (hv : value ≠ []) :
    (kc.CheckAndLoad value).2 = kc.Check value ∧
    (kc.Check value = true → (kc.CheckAndLoad value).1 = kc) ∧
    (kc.Check value = false →
      (kc.CheckAndLoad value).1.Check value = true ∧
      ∀ i, i ≠ (keyCache.getBucketKey value).1 →
        (kc.CheckAndLoad value).1.buckets i = kc.buckets i) := by
  have hlen : value.length ≠ 0 := fun h => hv (List.length_eq_zero.1 h)
  by_cases hmem : (keyCache.getBucketKey value).2 ∈ kc.buckets (keyCache.getBucketKey value).1
  · simp [keyCache.CheckAndLoad, keyCache.Check, hlen, hmem]
  · refine ⟨by simp [keyCache.CheckAndLoad, keyCache.Check, hlen, hmem],
      fun h => ?_, fun _ => ⟨?_, fun i hi => ?_⟩⟩
    · simp [keyCache.Check, hlen, hmem] at h
    · simp [keyCache.CheckAndLoad, keyCache.Check, hlen, hmem, keyCache.store_buckets_self]
    · simp [keyCache.CheckAndLoad, hlen, hmem, keyCache.store_buckets_other _ _ _ _ hi]

theorem keyCache.CheckAndLoad_spec_witness :
    ((NewKeyCache 10000).CheckAndLoad hello).2 = (NewKeyCache 10000).Check hello ∧
    ((NewKeyCache 10000).Check hello = true →
      ((NewKeyCache 10000).CheckAndLoad hello).1 = NewKeyCache 10000) ∧
    ((NewKeyCache 10000).Check hello = false →
      ((NewKeyCache 10000).CheckAndLoad hello).1.Check hello = true ∧
      ∀ i, i ≠ (keyCache.getBucketKey hello).1 →
        ((NewKeyCache 10000).CheckAndLoad hello).1.buckets i = (NewKeyCache 10000).buckets i) :=
  keyCache.CheckAndLoad_spec (NewKeyCache 10000) hello (by decide)

/-- C14: coarse eviction. For a non-empty value whose shard holds exactly `bucketSize`
digests, after `Load` (or after `CheckAndLoad` when the digest is absent) the shard holds
the digest of the value and nothing else, so `Check` is false for every value of that
shard with another digest; when the shard holds fewer than `bucketSize` digests it
becomes the old set plus the digest; every other shard is unchanged. -/
theorem keyCache.coarse_eviction (kc : keyCache) (value : Bytes) (hv : value ≠ []) :
    ((kc.buckets (keyCache.getBucketKey value).1).card = kc.bucketSize →
      (kc.Load value).buckets (keyCache.getBucketKey value).1
        = {(keyCache.getBucketKey value).2} ∧
      (kc.Check value = false →
        (kc.CheckAndLoad value).1.buckets (keyCache.getBucketKey value).1
          = {(keyCache.getBucketKey value).2}) ∧
      ∀ w : Bytes, (keyCache.getBucketKey w).1 = (keyCache.getBucketKey value).1 →
        (keyCache.getBucketKey w).2 ≠ (keyCache.getBucketKey value).2 →
        (kc.Load value).Check w = false) ∧
    ((kc.buckets (keyCache.getBucketKey value).1).card < kc.bucketSize →
      (kc.Load value).buckets (keyCache.getBucketKey value).1
        = insert (keyCache.getBucketKey value).2 (kc.buckets (keyCache.getBucketKey value).1) ∧
      (kc.Check value = false →
        (kc.CheckAndLoad value).1.buckets (keyCache.getBucketKey value).1
          = insert (keyCache.getBucketKey value).2
              (kc.buckets (keyCache.getBucketKey value).1))) ∧
    (∀ i, i ≠ (keyCache.getBucketKey value).1 →
      (kc.Load value).buckets i = kc.buckets i ∧
      (kc.CheckAndLoad value).1.buckets i = kc.buckets i) := by
  have hlen : value.length ≠ 0 := fun h => hv (List.length_eq_zero.1 h)
  have hload : kc.Load value
      = kc.store (keyCache.getBucketKey value).1 (keyCache.getBucketKey value).2 := by
    simp [keyCache.Load, hlen]
  have hcal : kc.Check value = false → (kc.CheckAndLoad value).1
      = kc.store (keyCache.getBucketKey value).1 (keyCache.getBucketKey value).2 := by
    intro h
    have hmem : (keyCache.getBucketKey value).2 ∉
        kc.buckets (keyCache.getBucketKey value).1 := by
      simpa [keyCache.Check, hlen] using h
    simp [keyCache.CheckAndLoad, hlen, hmem]
  refine ⟨fun hfull => ?_, fun hroom => ?_, fun i hi => ⟨?_, ?_⟩⟩
  · have hself : (kc.store (keyCache.getBucketKey value).1
        (keyCache.getBucketKey value).2).buckets (keyCache.getBucketKey value).1
        = {(keyCache.getBucketKey value).2} := by
      rw [keyCache.store_buckets_self, if_pos (by omega)]
      rfl
    refine ⟨by rw [hload, hself], fun h => by rw [hcal h, hself], fun w hw1 hw2 => ?_⟩
    unfold keyCache.Check
    split
    · rfl
    · simp only [hw1, hload, hself, Finset.mem_singleton, hw2, decide_False]
  · have hself : (kc.store (keyCache.getBucketKey value).1
        (keyCache.getBucketKey value).2).buckets (keyCache.getBucketKey value).1
        = insert (keyCache.getBucketKey value).2
            (kc.buckets (keyCache.getBucketKey value).1) := by
      rw [keyCache.store_buckets_self, if_neg (by omega)]
    exact ⟨by rw [hload, hself], fun h => by rw [hcal h, hself]⟩
  · rw [hload, keyCache.store_buckets_other _ _ _ _ hi]
  · by_cases hch : kc.Check value = false
    · rw [hcal hch, keyCache.store_buckets_other _ _ _ _ hi]
    · have hmem : (keyCache.getBucketKey value).2 ∈
          kc.buckets (keyCache.getBucketKey value).1 := by
        simpa [keyCache.Check, hlen] using hch
      simp [keyCache.CheckAndLoad, hlen, hmem]

theorem keyCache.coarse_eviction_witness :
    hello ≠ [] ∧
    (((NewKeyCache 256).Load [49, 54, 48]).buckets (keyCache.getBucketKey hello).1).card
      = ((NewKeyCache 256).Load [49, 54, 48]).bucketSize ∧
    (((NewKeyCache 256).Load [49, 54, 48]).Load hello).buckets (keyCache.getBucketKey hello).1
      = {(keyCache.getBucketKey hello).2} ∧
    (((NewKeyCache 256).Load [49, 54, 48]).Load hello).Check [49, 54, 48] = false :=
  have h := (keyCache.coarse_eviction ((NewKeyCache 256).Load [49, 54, 48]) hello
    (by decide)).1 (by decide)
  ⟨by decide, by decide, h.1, h.2.2 [49, 54, 48] (by decide) (by decide)⟩

/-! ## Offsets -/

theorem fnv64_lt (value : Bytes) : fnv64 value < 2 ^ 64 := by
  unfold fnv64
  have hstep : ∀ (l : Bytes) (init : Nat), init < 2 ^ 64 →
      l.foldl (fun hash c => ((hash * fnvPrime64) % 2 ^ 64) ^^^ c.val) init < 2 ^ 64 := by
    intro l
    induction l with
    | nil => intro init h; simpa using h
    | cons c rest ih =>
        intro init _
        rw [List.foldl_cons]
        apply ih
        apply Nat.xor_lt_two_pow (Nat.mod_lt _ (by positivity))
        exact lt_of_lt_of_le c.isLt (by norm_num)
  exact hstep value fnvOffset64 (by decide)

/-- The two halves returned by `hashValue` are 32-bit numbers. -/
theorem hashValue_lt (value : Bytes) :
    (hashValue value).1 < 2 ^ 32 ∧ (hashValue value).2 < 2 ^ 32 := by
  have h := fnv64_lt value
  simp only [hashValue]
  exact ⟨Nat.div_lt_of_lt_mul (by simpa using h), Nat.mod_lt _ (by positivity)⟩

/-- C15: on 64-bit `uint`, for 32-bit `h1`, `h2`, a plane index `1 ≤ i < 2^31` and a
positive size, `getOffset` does not wrap: it returns `(h1 + h2 * i) mod size`, which is
below `size`. -/
theorem getOffset_no_wrap (h1 h2 i size : Nat) (hh1 : h1 < 2 ^ 32) (hh2 : h2 < 2 ^ 32)
    (hi1 : 1 ≤ i) (hi : i < 2 ^ 31) (hsize : 0 < size) :
    getOffset h1 h2 i size = some ((h1 + h2 * i) % size) ∧ (h1 + h2 * i) % size < size := by
  have hmul : h2 * i ≤ (2 ^ 32 - 1) * (2 ^ 31 - 1) :=
    Nat.mul_le_mul (by omega) (by omega)
  have hlt : h1 + h2 * i < 2 ^ 64 := by
    have : (2 ^ 32 - 1) * (2 ^ 31 - 1) + 2 ^ 32 < 2 ^ 64 := by norm_num
    omega
  refine ⟨?_, Nat.mod_lt _ hsize⟩
  rw [getOffset, if_neg (Nat.pos_iff_ne_zero.1 hsize), Nat.mod_eq_of_lt hlt]

theorem getOffset_no_wrap_witness :
    getOffset (hashValue hello).1 (hashValue hello).2 7 136930
        = some (((hashValue hello).1 + (hashValue hello).2 * 7) % 136930) ∧
      ((hashValue hello).1 + (hashValue hello).2 * 7) % 136930 < 136930 :=
  getOffset_no_wrap (hashValue hello).1 (hashValue hello).2 7 136930
    (hashValue_lt hello).1 (hashValue_lt hello).2 (by decide) (by decide) (by decide)
/-! ## The constructor and `Reset` on degenerate inputs -/

/-- C18: for a storage type other than `Redis`, `NewBloomFilter` returns a nil filter and
the error `UnavailableBloomType(fmt.Sprint(st))`, and the server is left as it was, request
log included. -/
theorem NewBloomFilter_unavailable (estimate : Nat → ℚ → Nat × Nat) (st : StorageType)
    (c : Client) (key : String) (n : Nat) (p : ℚ) (cacheSize : Nat)
    (faultExists faultInit : Option GoError) (hst : st ≠ Redis) :
    NewBloomFilter estimate st c key n p cacheSize faultExists faultInit =
      .ret (c, none, some (GoError.unavailableBloomType (toString st))) := by
  simp [NewBloomFilter, hst]

theorem NewBloomFilter_unavailable_witness :
    NewBloomFilter demoEstimate 1 emptyClient "bloomtestkey" 100000 (1 / 100) 10000 none none =
      .ret (emptyClient, none, some (GoError.unavailableBloomType (toString (1 : StorageType)))) :=
  NewBloomFilter_unavailable demoEstimate 1 emptyClient "bloomtestkey" 100000 (1 / 100) 10000
    none none (by decide)

/-- C20: on the filter of main.go built with `cacheSize = 0`, whose cache is nil, `Reset`
panics. -/
theorem resetNoCacheScenario_eval :
    resetNoCacheScenario = some (false, Go.panic) := by
  decide

/-- `Reset` never returns on a filter without cache. -/
theorem BloomFilter.Reset_nil_cache (estimate : Nat → ℚ → Nat × Nat) (b : BloomFilter)
    (c : Client) (n : Nat) (p : ℚ) (fault : Option GoError) (hc : b.cache = none) :
    b.Reset estimate c n p fault = .panic := by
  unfold BloomFilter.Reset
  simp only
  cases h : b.storage.Init c (estimate n p).1 (estimate n p).2 fault with
  | panic => rfl
  | ret r =>
      obtain ⟨s1, c1, err⟩ := r
      have herr : err = none := by
        unfold RedisStorage.Init at h
        split at h
        · cases h
        · split at h <;> simp only [Go.ret.injEq, Prod.mk.injEq] at h <;> exact h.2.2.symm
      subst herr
      simp [hc]

set_option maxRecDepth 100000 in
/-- C19 fails as stated: `collisionA` and `collisionB` are different values with the same
MD5 sum, hence the same shard and cache key; after `Append(collisionA)`,
`Exists(collisionB)` is answered true by the filter with a cache and false by the filter
without cache, no transaction failing. -/
theorem cache_transparent_counterexample :
    demoAnswers 10000 [Call.appendCall collisionA none, Call.existsCall collisionB none]
        = some [(none, none), (some true, none)] ∧
      demoAnswers 0 [Call.appendCall collisionA none, Call.existsCall collisionB none]
        = some [(none, none), (some false, none)] := by
  decide
/-! ## The cache against the storage -/

theorem keyCache.mem_store (kc : keyCache) (index i : Fin 256) (key k : CacheKey)
    (h : k ∈ (kc.store index key).buckets i) :
    (i = index ∧ k = key) ∨ k ∈ kc.buckets i := by
  by_cases hi : i = index
  · subst hi
    rw [keyCache.store_buckets_self] at h
    rcases Finset.mem_insert.1 h with h | h
    · exact Or.inl ⟨rfl, h⟩
    · split at h
      · simp at h
      · exact Or.inr h
  · rw [keyCache.store_buckets_other _ _ _ _ hi] at h
    exact Or.inr h

theorem keyCache.mem_Load (kc : keyCache) (value : Bytes) (i : Fin 256) (k : CacheKey)
    (h : k ∈ (kc.Load value).buckets i) :
    keyCache.getBucketKey value = (i, k) ∨ k ∈ kc.buckets i := by
  unfold keyCache.Load at h
  split at h
  · exact Or.inr h
  · rcases keyCache.mem_store _ _ _ _ _ h with ⟨h1, h2⟩ | h
    · exact Or.inl (Prod.ext h1.symm h2.symm)
    · exact Or.inr h

theorem keyCache.Check_eq_true (kc : keyCache) (value : Bytes) (h : kc.Check value = true) :
    (keyCache.getBucketKey value).2 ∈ kc.buckets (keyCache.getBucketKey value).1 := by
  unfold keyCache.Check at h
  split at h
  · cases h
  · simpa using h

theorem keyCache.CheckAndLoad_true (kc : keyCache) (value : Bytes)
    (h : (kc.CheckAndLoad value).2 = true) :
    (kc.CheckAndLoad value).1 = kc ∧
      (keyCache.getBucketKey value).2 ∈ kc.buckets (keyCache.getBucketKey value).1 := by
  by_cases hlen : value.length = 0
  · simp [keyCache.CheckAndLoad, hlen] at h
  · by_cases hmem : (keyCache.getBucketKey value).2 ∈
        kc.buckets (keyCache.getBucketKey value).1
    · exact ⟨by simp [keyCache.CheckAndLoad, hlen, hmem], hmem⟩
    · simp [keyCache.CheckAndLoad, hlen, hmem] at h

theorem keyCache.mem_CheckAndLoad (kc : keyCache) (value : Bytes) (i : Fin 256)
    (k : CacheKey) (h : k ∈ (kc.CheckAndLoad value).1.buckets i) :
    keyCache.getBucketKey value = (i, k) ∨ k ∈ kc.buckets i := by
  by_cases hlen : value.length = 0
  · exact Or.inr (by simpa [keyCache.CheckAndLoad, hlen] using h)
  · by_cases hmem : (keyCache.getBucketKey value).2 ∈
        kc.buckets (keyCache.getBucketKey value).1
    · exact Or.inr (by simpa [keyCache.CheckAndLoad, hlen, hmem] using h)
    · have h1 : k ∈ (kc.store (keyCache.getBucketKey value).1
          (keyCache.getBucketKey value).2).buckets i := by
        simpa [keyCache.CheckAndLoad, hlen, hmem] using h
      rcases keyCache.mem_store _ _ _ _ _ h1 with ⟨h1, h2⟩ | h
      · exact Or.inl (Prod.ext h1.symm h2.symm)
      · exact Or.inr h

/-- Soundness of the cache survives new set bits and a longer history. -/
theorem CacheSound.mono (s : RedisStorage) (kc : keyCache) (db db1 : DB)
    (seen : List Bytes) (v : Bytes)
    (hmono : ∀ key off, db.bit key off = true → db1.bit key off = true)
    (h : CacheSound s kc db seen) : CacheSound s kc db1 (v :: seen) := by
  intro i k hk
  obtain ⟨w, hw, hkey, hbits⟩ := h i k hk
  exact ⟨w, List.mem_cons_of_mem _ hw, hkey, fun q hq => hmono _ _ (hbits q hq)⟩

/-- One call, no fault: the filter with a cache and the filter without cache return the
same values and leave the same key space, provided the value of the call shares its shard
and key with no other value of the history. -/
theorem Call.answer_sim (call : Call) (b : BloomFilter) (kc : keyCache) (cc cn : Client)
    (seen : List Bytes) (hc : b.cache = some kc) (hsize : 0 < b.storage.size)
    (hwf : b.storage.WF) (hdb : cc.db = cn.db) (hf : call.fault = none)
    (hinj : ∀ v ∈ seen,
      keyCache.getBucketKey v = keyCache.getBucketKey call.value → v = call.value)
    (hinv : CacheSound b.storage kc cc.db seen) :
    ∃ kc1 cc1 cn1 out,
      call.answer b cc = .ret ({ b with cache := some kc1 }, cc1, out) ∧
      call.answer { b with cache := none } cn = .ret ({ b with cache := none }, cn1, out) ∧
      cc1.db = cn1.db ∧ CacheSound b.storage kc1 cc1.db (call.value :: seen) := by
  -- a cache hit on the value of the call means its bits are set
  have hhit : ∀ x : Bytes, (∀ v ∈ seen,
        keyCache.getBucketKey v = keyCache.getBucketKey x → v = x) →
      (keyCache.getBucketKey x).2 ∈ kc.buckets (keyCache.getBucketKey x).1 →
      ∀ q ∈ b.storage.pairs x, cc.db.bit q.1 q.2 = true := by
    intro x hx hmem
    obtain ⟨v, hv, hkey, hbits⟩ := hinv _ _ hmem
    have := hx v hv hkey
    subst this
    exact hbits
  cases call with
  | appendCall x f =>
      simp only [Call.fault] at hf
      subst hf
      simp only [Call.value] at hinj ⊢
      refine ⟨kc.Load x,
        { db := (execCmds (setCmds (b.storage.pairs x)) cc.db).1,
          log := cc.log ++ [Request.tx (setCmds (b.storage.pairs x))] },
        { db := (execCmds (setCmds (b.storage.pairs x)) cn.db).1,
          log := cn.log ++ [Request.tx (setCmds (b.storage.pairs x))] }, (none, none), ?_, ?_, ?_, ?_⟩
      · simp [Call.answer, BloomFilter.Append, hc, RedisStorage.Append_ok _ cc x hsize]
      · simp [Call.answer, BloomFilter.Append, RedisStorage.Append_ok _ cn x hsize]
      · simp only [hdb]
      · intro i k hk
        rcases keyCache.mem_Load _ _ _ _ hk with hnew | hold
        · exact ⟨x, List.mem_cons_self _ _, hnew, execCmds_setCmds_bits _ _⟩
        · obtain ⟨v, hv, hkey, hbits⟩ := hinv i k hold
          exact ⟨v, List.mem_cons_of_mem _ hv, hkey,
            fun q hq => execCmds_setCmds_mono _ _ _ _ (hbits q hq)⟩
  | existsCall x f =>
      simp only [Call.fault] at hf
      subst hf
      simp only [Call.value] at hinj ⊢
      by_cases hch : kc.Check x = true
      · have hbits := hhit x hinj (keyCache.Check_eq_true kc x hch)
        rw [hdb] at hbits
        refine ⟨kc, cc,
          { db := cn.db,
            log := cn.log ++ [Request.tx (getCmds (b.storage.pairs x))] }, (some true, none), ?_, ?_, hdb,
          CacheSound.mono _ _ _ _ _ _ (fun _ _ h => h) hinv⟩
        · simp [Call.answer, BloomFilter.Exists, hc, hch]
          rw [← hc]
        · simp only [Call.answer, BloomFilter.Exists,
            RedisStorage.Exists_ok _ cn x hsize hwf, decide_eq_true hbits]
      · refine ⟨kc,
          { db := cc.db,
            log := cc.log ++ [Request.tx (getCmds (b.storage.pairs x))] },
          { db := cn.db,
            log := cn.log ++ [Request.tx (getCmds (b.storage.pairs x))] },
          (some (decide (∀ q ∈ b.storage.pairs x, cc.db.bit q.1 q.2 = true)),
          none), ?_, ?_, ?_, CacheSound.mono _ _ _ _ _ _ (fun _ _ h => h) hinv⟩
        · simp only [Call.answer, BloomFilter.Exists, hc, hch,
            RedisStorage.Exists_ok _ cc x hsize hwf]
          simp only [Bool.false_eq_true, if_false]
          rw [← hc]
        · simp only [Call.answer, BloomFilter.Exists,
            RedisStorage.Exists_ok _ cn x hsize hwf, hdb]
        · exact hdb
  | existsAndAppendCall x f =>
      simp only [Call.fault] at hf
      subst hf
      simp only [Call.value] at hinj ⊢
      by_cases hch : (kc.CheckAndLoad x).2 = true
      · obtain ⟨hkc, hmem⟩ := keyCache.CheckAndLoad_true kc x hch
        have hbits := hhit x hinj hmem
        rw [hdb] at hbits
        refine ⟨kc, cc,
          { db := (execCmds (setCmds (b.storage.pairs x)) cn.db).1,
            log := cn.log ++ [Request.tx (setCmds (b.storage.pairs x))] }, (some true, none), ?_, ?_, ?_,
          CacheSound.mono _ _ _ _ _ _ (fun _ _ h => h) hinv⟩
        · simp only [Call.answer, BloomFilter.ExistsAndAppend_of_cache b kc cc x none hc, hch,
            if_true, hkc]
        · simp only [Call.answer, BloomFilter.ExistsAndAppend,
            RedisStorage.ExistsAndAppend_ok _ cn x hsize hwf, decide_eq_true hbits]
        · simp only [execCmds_setCmds_of_bits _ _ hbits, hdb]
      · refine ⟨(kc.CheckAndLoad x).1,
          { db := (execCmds (setCmds (b.storage.pairs x)) cc.db).1,
            log := cc.log ++ [Request.tx (setCmds (b.storage.pairs x))] },
          { db := (execCmds (setCmds (b.storage.pairs x)) cn.db).1,
            log := cn.log ++ [Request.tx (setCmds (b.storage.pairs x))] },
          (some (decide (∀ q ∈ b.storage.pairs x, cc.db.bit q.1 q.2 = true)), none),
          ?_, ?_, ?_, ?_⟩
        · simp only [Call.answer, BloomFilter.ExistsAndAppend_of_cache b kc cc x none hc, hch,
            RedisStorage.ExistsAndAppend_ok _ cc x hsize hwf]
          simp only [Bool.false_eq_true, if_false]
        · simp only [Call.answer, BloomFilter.ExistsAndAppend,
            RedisStorage.ExistsAndAppend_ok _ cn x hsize hwf, hdb]
        · simp only [hdb]
        · intro i k hk
          rcases keyCache.mem_CheckAndLoad _ _ _ _ hk with hnew | hold
          · exact ⟨x, List.mem_cons_self _ _, hnew, execCmds_setCmds_bits _ _⟩
          · obtain ⟨v, hv, hkey, hbits⟩ := hinv i k hold
            exact ⟨v, List.mem_cons_of_mem _ hv, hkey,
              fun q hq => execCmds_setCmds_mono _ _ _ _ (hbits q hq)⟩

/-- A sequence of calls, no fault: the filter with a cache and the filter without cache
return the same list of values and end on the same key space. -/
theorem traceCalls_sim (calls : List Call) :
    ∀ (b : BloomFilter) (kc : keyCache) (cc cn : Client) (seen : List Bytes),
      b.cache = some kc → 0 < b.storage.size → b.storage.WF → cc.db = cn.db →
      (∀ call ∈ calls, call.fault = none) →
      (∀ x ∈ seen ++ calls.map Call.value, ∀ y ∈ seen ++ calls.map Call.value,
        keyCache.getBucketKey x = keyCache.getBucketKey y → x = y) →
      CacheSound b.storage kc cc.db seen →
      ∃ kc1 cc1 cn1 outs,
        traceCalls calls b cc = .ret ({ b with cache := some kc1 }, cc1, outs) ∧
        traceCalls calls { b with cache := none } cn
          = .ret ({ b with cache := none }, cn1, outs) ∧
        cc1.db = cn1.db ∧
        CacheSound b.storage kc1 cc1.db (calls.reverse.map Call.value ++ seen) := by
  induction calls with
  | nil =>
      intro b kc cc cn seen hc _ _ hdb _ _ hinv
      refine ⟨kc, cc, cn, [], ?_, rfl, hdb, by simpa using hinv⟩
      simp only [traceCalls]
      rw [← hc]
  | cons call rest ih =>
      intro b kc cc cn seen hc hsize hwf hdb hf hinj hinv
      obtain ⟨kc1, cc1, cn1, out, h1, h2, hdb1, hinv1⟩ :=
        call.answer_sim b kc cc cn seen hc hsize hwf hdb (hf call (List.mem_cons_self _ _))
          (fun v hv hkey => hinj v (by simp [hv]) call.value (by simp) hkey) hinv
      obtain ⟨kc2, cc2, cn2, outs, h3, h4, hdb2, hinv2⟩ :=
        ih { b with cache := some kc1 } kc1 cc1 cn1 (call.value :: seen) rfl hsize hwf hdb1
          (fun c hc => hf c (List.mem_cons_of_mem _ hc))
          (fun x hx y hy hkey => hinj x (by
              simp only [List.mem_append, List.mem_cons, List.map_cons] at hx ⊢
              tauto) y (by
              simp only [List.mem_append, List.mem_cons, List.map_cons] at hy ⊢
              tauto) hkey)
          hinv1
      refine ⟨kc2, cc2, cn2, out :: outs, ?_, ?_, hdb2, ?_⟩
      · simp only [traceCalls, h1, h3]
      · simp only [traceCalls, h2]
        simp only at h4
        simp only [h4]
      · simpa using hinv2

/-- C19, as the code has it: from a filter with an empty cache and for every sequence of
facade `Append`, `Exists` and `ExistsAndAppend` calls that meet no fault and in which no
two different values share their cache shard and key (that is, their MD5 sum), the filter
with a cache (any cache size) returns the same values as the filter without cache and ends
on the same key space; and each key the cache then holds is that of a value all of whose
k bits are set. -/
theorem cache_transparent (b : BloomFilter) (c : Client) (cacheSize : Nat)
    (calls : List Call) (hsize : 0 < b.storage.size) (hwf : b.storage.WF)
    (hfault : ∀ call ∈ calls, call.fault = none)
    (hinj : ∀ x ∈ calls, ∀ y ∈ calls,
      keyCache.getBucketKey x.value = keyCache.getBucketKey y.value → x.value = y.value) :
    ∃ kc1 cc cn outs,
      traceCalls calls { b with cache := some (NewKeyCache cacheSize) } c
        = .ret ({ b with cache := some kc1 }, cc, outs) ∧
      traceCalls calls { b with cache := none } c = .ret ({ b with cache := none }, cn, outs) ∧
      cc.db = cn.db ∧
      ∀ i k, k ∈ kc1.buckets i →
        ∃ v, keyCache.getBucketKey v = (i, k) ∧ b.storage.bitsSet cc.db v := by
  obtain ⟨kc1, cc, cn, outs, h1, h2, hdb, hinv⟩ :=
    traceCalls_sim calls { b with cache := some (NewKeyCache cacheSize) }
      (NewKeyCache cacheSize) c c [] rfl hsize hwf rfl hfault
      (fun x hx y hy hkey => by
        simp only [List.nil_append, List.mem_map] at hx hy
        obtain ⟨cx, hcx, rfl⟩ := hx
        obtain ⟨cy, hcy, rfl⟩ := hy
        exact hinj cx hcx cy hcy hkey)
      (fun i k hk => by simp [NewKeyCache] at hk)
  refine ⟨kc1, cc, cn, outs, h1, h2, hdb, fun i k hk => ?_⟩
  obtain ⟨v, -, hkey, hbits⟩ := hinv i k hk
  exact ⟨v, hkey, (b.storage.bitsSet_iff cc.db v hsize hwf).2 hbits⟩

set_option maxRecDepth 100000 in
theorem cache_transparent_witness :
    ∃ kc1 cc cn outs,
      traceCalls [Call.appendCall hello none, Call.existsCall hello none,
          Call.existsAndAppendCall [97] none, Call.existsCall [97] none]
          { demoFilter with cache := some (NewKeyCache 10000) } emptyClient
        = .ret ({ demoFilter with cache := some kc1 }, cc, outs) ∧
      traceCalls [Call.appendCall hello none, Call.existsCall hello none,
          Call.existsAndAppendCall [97] none, Call.existsCall [97] none]
          { demoFilter with cache := none } emptyClient
        = .ret ({ demoFilter with cache := none }, cn, outs) ∧
      cc.db = cn.db ∧
      ∀ i k, k ∈ kc1.buckets i →
        ∃ v, keyCache.getBucketKey v = (i, k) ∧ demoFilter.storage.bitsSet cc.db v :=
  cache_transparent demoFilter emptyClient 10000 _ (by decide) (by decide) (by decide)
    (by decide)
/-! ## Parameter estimation -/

/-- The denominator `ln(1 / 2^(ln 2))` of bloom.go is `-(ln 2)^2`. -/
theorem log_one_div_two_rpow :
    Real.log (1 / (2 : ℝ) ^ Real.log 2) = -(Real.log 2 * Real.log 2) := by
  rw [one_div, Real.log_inv, Real.log_rpow (by norm_num)]

/-- The real number whose ceiling is `m`, with a positive denominator. -/
theorem estimate_quotient (n : Nat) (p : ℝ) :
    (n : ℝ) * Real.log p / Real.log (1 / (2 : ℝ) ^ Real.log 2)
      = (n : ℝ) * (-Real.log p) / (Real.log 2 * Real.log 2) := by
  rw [log_one_div_two_rpow, div_neg, ← neg_div, mul_neg]

theorem log_two_sq_pos : 0 < Real.log 2 * Real.log 2 :=
  mul_pos (Real.log_pos (by norm_num)) (Real.log_pos (by norm_num))

/-- C16 fails as stated: for n = 100 and p = 0.99 the formulas give k = 0. -/
theorem EstimateParameters_counterexample :
    ¬ 1 ≤ (EstimateParameters 100 (99 / 100)).2 := by
  have hL1 := Real.log_two_gt_d9
  have hL2 := Real.log_two_lt_d9
  have hLpos : 0 < Real.log 2 := Real.log_pos (by norm_num)
  -- the quotient is at most 3
  have hlog : -Real.log (99 / 100) ≤ 1 / 99 := by
    have h := Real.log_le_sub_one_of_pos (show (0 : ℝ) < 100 / 99 by norm_num)
    have hinv : Real.log (100 / 99) = -Real.log (99 / 100) := by
      rw [← Real.log_inv]
      norm_num
    rw [hinv] at h
    linarith
  have hx : ((100 : ℕ) : ℝ) * Real.log (99 / 100) / Real.log (1 / (2 : ℝ) ^ Real.log 2) ≤ 3 := by
    rw [estimate_quotient, div_le_iff₀ log_two_sq_pos]
    have hsq : (0.48 : ℝ) ≤ Real.log 2 * Real.log 2 := by nlinarith
    push_cast
    nlinarith
  have hceil : ((⌈((100 : ℕ) : ℝ) * Real.log (99 / 100)
      / Real.log (1 / (2 : ℝ) ^ Real.log 2)⌉ : ℤ) : ℝ) ≤ 3 := by
    have h3 : ((100 : ℕ) : ℝ) * Real.log (99 / 100) / Real.log (1 / (2 : ℝ) ^ Real.log 2)
        ≤ ((3 : ℤ) : ℝ) := by
      rw [Int.cast_ofNat]
      exact hx
    have := Int.ceil_le.2 h3
    exact_mod_cast this
  have hk : (EstimateParameters 100 (99 / 100)).2 = 0 := by
    simp only [EstimateParameters]
    rw [Nat.floor_eq_zero]
    push_cast at hceil ⊢
    nlinarith
  omega

/-- C16, as the code has it: for `n > 0` and `0 < p ≤ 1/√2` (written `2 p² ≤ 1`) the
formulas give `k ≥ 1`, and the partition size `ceil(m/k)` is then a positive number. -/
theorem EstimateParameters_hashIter_pos (n : Nat) (p : ℝ) (hn : 0 < n) (hp : 0 < p)
    (hp2 : 2 * p ^ 2 ≤ 1) :
    1 ≤ (EstimateParameters n p).2 ∧
      ∃ s, partitionSize (EstimateParameters n p).1 (EstimateParameters n p).2 = some s ∧
        0 < s := by
  have hLpos : 0 < Real.log 2 := Real.log_pos (by norm_num)
  have hnpos : (0 : ℝ) < n := by exact_mod_cast hn
  -- `-ln p ≥ ln 2 / 2`
  have hlogp : Real.log 2 / 2 ≤ -Real.log p := by
    have h1 : Real.log (p ^ 2) ≤ Real.log (1 / 2) :=
      Real.log_le_log (by positivity) (by linarith)
    rw [Real.log_pow, one_div, Real.log_inv] at h1
    push_cast at h1
    linarith
  -- the quotient `x` whose ceiling is `m`
  have hx : (n : ℝ) / (2 * Real.log 2)
      ≤ (n : ℝ) * Real.log p / Real.log (1 / (2 : ℝ) ^ Real.log 2) := by
    rw [estimate_quotient, div_le_div_iff₀ (by positivity) log_two_sq_pos]
    have hmul := mul_le_mul_of_nonneg_left hlogp (mul_nonneg hnpos.le hLpos.le)
    nlinarith
  have hxpos : 0 < (n : ℝ) * Real.log p / Real.log (1 / (2 : ℝ) ^ Real.log 2) :=
    lt_of_lt_of_le (by positivity) hx
  have hceil := Int.le_ceil ((n : ℝ) * Real.log p / Real.log (1 / (2 : ℝ) ^ Real.log 2))
  have hceil1 : (1 : ℝ) ≤
      ((⌈(n : ℝ) * Real.log p / Real.log (1 / (2 : ℝ) ^ Real.log 2)⌉ : ℤ) : ℝ) := by
    have : (1 : ℤ) ≤ ⌈(n : ℝ) * Real.log p / Real.log (1 / (2 : ℝ) ^ Real.log 2)⌉ :=
      Int.ceil_pos.2 hxpos
    exact_mod_cast this
  -- `k ≥ 1`
  have hk : 1 ≤ (EstimateParameters n p).2 := by
    simp only [EstimateParameters]
    apply Nat.le_floor
    have hmn : (n : ℝ) / (2 * Real.log 2)
        ≤ ((⌈(n : ℝ) * Real.log p / Real.log (1 / (2 : ℝ) ^ Real.log 2)⌉ : ℤ) : ℝ) :=
      le_trans hx hceil
    have hhalf : (1 : ℝ) / 2 ≤ Real.log 2 *
        ((⌈(n : ℝ) * Real.log p / Real.log (1 / (2 : ℝ) ^ Real.log 2)⌉ : ℤ) : ℝ) / n := by
      rw [le_div_iff₀ hnpos]
      rw [div_le_iff₀ (by positivity)] at hmn
      nlinarith
    push_cast
    linarith
  have hm : 1 ≤ (EstimateParameters n p).1 := by
    simp only [EstimateParameters]
    apply Nat.le_floor
    push_cast
    exact hceil1
  refine ⟨hk, ⌈((EstimateParameters n p).1 : ℚ) / ((EstimateParameters n p).2 : ℚ)⌉₊, ?_, ?_⟩
  · rw [partitionSize, if_neg (by omega)]
  · apply Nat.ceil_pos.2
    have h1 : (0 : ℚ) < ((EstimateParameters n p).1 : ℚ) := by exact_mod_cast hm
    have h2 : (0 : ℚ) < ((EstimateParameters n p).2 : ℚ) := by exact_mod_cast hk
    positivity

theorem EstimateParameters_hashIter_pos_witness :
    1 ≤ (EstimateParameters 100000 (1 / 100)).2 ∧
      ∃ s, partitionSize (EstimateParameters 100000 (1 / 100)).1
          (EstimateParameters 100000 (1 / 100)).2 = some s ∧ 0 < s :=
  EstimateParameters_hashIter_pos 100000 (1 / 100) (by decide) (by norm_num) (by norm_num)
/-- Ten terms of the series of `ln(1 - x)` at `x = 1/5` give `ln(5/4)` to seven places. -/
theorem log_five_quarters_bounds :
    (0.2231435 : ℝ) < Real.log (5 / 4) ∧ Real.log (5 / 4) < 0.2231436 := by
  have habs : |(1 / 5 : ℝ)| = 1 / 5 := abs_of_pos (by norm_num)
  have h := Real.abs_log_sub_add_sum_range_le (show |(1 / 5 : ℝ)| < 1 by rw [habs]; norm_num) 10
  have hlog : Real.log (1 - 1 / 5) = -Real.log (5 / 4) := by
    rw [← Real.log_inv]
    norm_num
  rw [hlog, habs] at h
  simp only [Finset.sum_range_succ, Finset.sum_range_zero] at h
  rw [abs_le] at h
  norm_num at h
  constructor <;> linarith [h.1, h.2]

theorem log_hundred : Real.log 100 = 6 * Real.log 2 + 2 * Real.log (5 / 4) := by
  have h : (100 : ℝ) = 2 ^ 6 * (5 / 4) ^ 2 := by norm_num
  rw [h, Real.log_mul (by positivity) (by positivity), Real.log_pow, Real.log_pow]
  push_cast
  ring

/-- C17: for n = 100000 and p = 0.01 the formulas, over the real numbers, give m = 958506
and k = 7, and the partition size `ceil(m/k)` is 136930. -/
theorem EstimateParameters_demo :
    EstimateParameters 100000 (1 / 100) = (958506, 7) ∧
      partitionSize 958506 7 = some 136930 := by
  have hL1 := Real.log_two_gt_d9
  have hL2 := Real.log_two_lt_d9
  obtain ⟨hA1, hA2⟩ := log_five_quarters_bounds
  have hLpos : 0 < Real.log 2 := Real.log_pos (by norm_num)
  have hlogp : -Real.log (1 / 100) = 6 * Real.log 2 + 2 * Real.log (5 / 4) := by
    rw [one_div, Real.log_inv, neg_neg, log_hundred]
  have hsq1 : (0.6931471803 : ℝ) * 0.6931471803 < Real.log 2 * Real.log 2 := by nlinarith
  have hsq2 : Real.log 2 * Real.log 2 < (0.6931471808 : ℝ) * 0.6931471808 := by nlinarith
  -- the ceiling is 958506
  have hceil : ⌈((100000 : ℕ) : ℝ) * Real.log (1 / 100)
      / Real.log (1 / (2 : ℝ) ^ Real.log 2)⌉ = 958506 := by
    rw [Int.ceil_eq_iff, estimate_quotient, hlogp]
    constructor
    · rw [lt_div_iff₀ log_two_sq_pos]
      push_cast
      norm_num at hsq1 hsq2 ⊢
      nlinarith
    · rw [div_le_iff₀ log_two_sq_pos]
      push_cast
      norm_num at hsq1 hsq2 ⊢
      nlinarith
  refine ⟨?_, ?_⟩
  · simp only [EstimateParameters, hceil]
    refine Prod.ext ?_ ?_
    · simp only
      norm_num
    · simp only
      rw [Nat.floor_eq_iff (by positivity)]
      push_cast
      constructor <;> norm_num <;> linarith
  · rw [partitionSize, if_neg (by decide)]
    congr 1
    rw [Nat.ceil_eq_iff (by decide)]
    constructor <;> norm_num
/-! ## Shard and key against the MD5 sum -/

theorem leBytes_length (n x : Nat) : (leBytes n x).length = n := by
  induction n generalizing x with
  | zero => rfl
  | succ n ih => simp [leBytes, ih]

theorem md5Sum_length (value : Bytes) : (md5Sum value).length = 16 := by
  simp [md5Sum, leBytes_length]

/-- Two values have the same shard and cache key exactly when they have the same MD5
sum. -/
theorem keyCache.getBucketKey_eq_iff (x y : Bytes) :
    keyCache.getBucketKey x = keyCache.getBucketKey y ↔ md5Sum x = md5Sum y := by
  constructor
  · intro h
    simp only [keyCache.getBucketKey, Prod.mk.injEq] at h
    obtain ⟨h15, htake⟩ := h
    have hx := md5Sum_length x
    have hy := md5Sum_length y
    apply List.ext_getElem?
    intro i
    by_cases hi : i < 15
    · have e := congrArg (fun l : Bytes => l[i]?) htake
      simpa [List.getElem?_take, hi] using e
    · by_cases hi15 : i = 15
      · subst hi15
        have h1 : 15 < (md5Sum x).length := by omega
        have h2 : 15 < (md5Sum y).length := by omega
        simpa [List.getD_eq_getElem?_getD, List.getElem?_eq_getElem h1,
          List.getElem?_eq_getElem h2] using h15
      · rw [List.getElem?_eq_none (by omega), List.getElem?_eq_none (by omega)]
  · intro h
    simp [keyCache.getBucketKey, h]

end Bloom
